import Mathlib

/-!
# Verification of the TaskTracker bank-allocation / spreadsheet round-trip engine

Shallow embedding of the core logic of `client/src/lib/excelUtils.ts` and of the
per-bank aggregation in `client/src/pages/period-report.tsx`, together with
proofs settling the frozen claims C1..C10.

Modelling conventions:
* JavaScript numbers are modelled as `ℚ` (exact rationals); machine floating
  point is abstracted away, matching the spec's tolerance phrasing ("within
  0.01", "floating-point epsilon").
* A spreadsheet cell is a string or a number (`Cell`); an absent cell is
  `none : Option Cell`.  JS truthiness of cells is modelled by `Cell.truthy`.
* A worksheet row (the loosely-typed dictionary produced by
  `XLSX.utils.sheet_to_json`) is modelled by the structure `Row`, one
  `Option Cell` field per column key that `excelUtils.ts` ever reads or
  writes; the doc comment of each field names the Arabic column key.
* `String.trim` models JS `String.prototype.trim`.
* `generateMissionId` / `generateExpenseId` produce fresh unique identifiers
  (timestamp + randomness in the source); they are modelled by injective
  counter-indexed generators.
-/

set_option maxRecDepth 4000

namespace TaskTracker

/-- A spreadsheet cell value: JS string or JS number. -/
inductive Cell where
  | str (s : String)
  | num (q : ℚ)
deriving DecidableEq

/-- JS truthiness of a cell value: `""` and `0` are falsy. -/
def Cell.truthy : Cell → Bool
  | .str s => s ≠ ""
  | .num q => q ≠ 0

/-- JS truthiness of a possibly-absent cell (`undefined` is falsy). -/
def otruthy : Option Cell → Bool
  | none => false
  | some c => c.truthy

/-- JS `a || b` on possibly-absent cell values. -/
def jsOr (a b : Option Cell) : Option Cell :=
  if otruthy a then a else b

/-- JS `String.prototype.trim` (modelled by `String.trim`). -/
def jsTrim (s : String) : String := s.trim

/-- Decimal digit characters accepted by the `\d` regex class. -/
def isDig (c : Char) : Bool := '0' ≤ c ∧ c ≤ '9'

/-- Numeric value of a list of decimal digits (most significant first);
this is what `parseInt` computes on an all-digit string. -/
def digitsToNat (cs : List Char) : ℕ :=
  cs.foldl (fun n c => n * 10 + (c.toNat - '0'.toNat)) 0

/-- One decimal digit as a character. -/
def digChar (d : ℕ) : Char := Char.ofNat ('0'.toNat + d)

/-- Decimal digit list of a natural number (most significant first).
Own definition so that injectivity is provable; used to model the fresh
unique identifiers produced by `generateMissionId`/`generateExpenseId`. -/
def natDigits (n : ℕ) : List Char :=
  if _h : n < 10 then [digChar n]
  else natDigits (n / 10) ++ [digChar (n % 10)]
decreasing_by exact Nat.div_lt_self (by omega) (by omega)

/-- `JSON`-style rendering of a natural number (used for id generation). -/
def natStr (n : ℕ) : String := String.mk (natDigits n)

/-- JS number-to-string for a rational that is an integer (`String(42) = "42"`,
`String(-7) = "-7"`); non-integers (never produced by the code paths the
claims cover) are rendered as `num/den`. -/
def ratToStr (q : ℚ) : String :=
  if q.den = 1 then toString q.num
  else toString q.num ++ "/" ++ toString q.den

/-- JS `String(x)` coercion of a cell value. -/
def cellToStr : Cell → String
  | .str s => s
  | .num q => ratToStr q

/-- JS `String(row[k1] || row[k2] || '')`: coerce an or-chain whose last
element is the empty string. -/
def jsStrOrEmpty (c : Option Cell) : String :=
  match jsOr c (some (Cell.str "")) with
  | some cell => cellToStr cell
  | none => ""

/-- Strip `,` and `،` (Arabic comma) thousands separators — the
`val.replace(/[,،]/g, '')` step of `parseNumber`. -/
def stripCommas (s : String) : String :=
  String.mk (s.data.filter (fun c => c ≠ ',' ∧ c ≠ '،'))

/-- Model of JS `parseFloat` on a string: parse an optional sign followed by a
decimal literal prefix (`digits[.digits][e[+-]digits]`); `none` models `NaN`.
Helper: parse a run of leading digits, returning them and the rest. -/
def takeDigits : List Char → List Char × List Char
  | [] => ([], [])
  | c :: cs =>
    if isDig c then
      let (ds, rest) := takeDigits cs
      (c :: ds, rest)
    else ([], c :: cs)

/-- Fractional value of digit list `ds` read as the digits after a decimal
point. -/
def fracVal (ds : List Char) : ℚ :=
  (digitsToNat ds : ℚ) / ((10 : ℚ) ^ ds.length)

/-- Parse the exponent suffix `e[+-]digits`; returns the exponent (0 when the
suffix is absent or malformed, matching `parseFloat`'s prefix semantics). -/
def parseExp (cs : List Char) : Int :=
  match cs with
  | 'e' :: rest | 'E' :: rest =>
    match rest with
    | '-' :: ds => - (digitsToNat (takeDigits ds).1 : Int)
    | '+' :: ds => (digitsToNat (takeDigits ds).1 : Int)
    | ds => (digitsToNat (takeDigits ds).1 : Int)
  | _ => 0

/-- Model of JS `parseFloat` (prefix parse; `none` = `NaN`). -/
def jsParseFloat (s : String) : Option ℚ :=
  let cs := (jsTrim s).data
  let (sign, cs) : ℚ × List Char :=
    match cs with
    | '-' :: rest => (-1, rest)
    | '+' :: rest => (1, rest)
    | _ => (1, cs)
  let (intDs, rest) := takeDigits cs
  let (fracDs, rest2) :=
    match rest with
    | '.' :: more => takeDigits more
    | _ => ([], rest)
  if intDs = [] ∧ fracDs = [] then none
  else
    let mant : ℚ := (digitsToNat intDs : ℚ) + fracVal fracDs
    let e := parseExp rest2
    some (sign * mant * (10 : ℚ) ^ e)

/-- Model of JS `parseInt` (prefix parse of an optional sign and digits;
`none` = `NaN`). -/
def jsParseInt (s : String) : Option Int :=
  let cs := (jsTrim s).data
  let (sign, cs) : Int × List Char :=
    match cs with
    | '-' :: rest => (-1, rest)
    | '+' :: rest => (1, rest)
    | _ => (1, cs)
  let (intDs, _) := takeDigits cs
  if intDs = [] then none
  else some (sign * (digitsToNat intDs : Int))

/-- Truncation toward zero, the value JS `parseInt` extracts from a finite
numeric argument (`parseInt(4.7) = 4`, `parseInt(-4.7) = -4`). -/
def ratTrunc (q : ℚ) : Int := if 0 ≤ q then ⌊q⌋ else ⌈q⌉

/-- JS `parseInt(cell)`: a number argument is stringified and re-parsed, which
for finite JS numbers truncates toward zero; a string argument is
prefix-parsed. `none` models `NaN`. -/
def jsParseIntCell : Option Cell → Option Int
  | none => none
  | some (.num q) => some (ratTrunc q)
  | some (.str s) => jsParseInt s

/-- JS `parseFloat(cell)`: a number argument is stringified and re-parsed,
an exact round trip for JS floats; a string argument is prefix-parsed. -/
def jsParseFloatCell : Option Cell → Option ℚ
  | none => none
  | some (.num q) => some q
  | some (.str s) => jsParseFloat s

/-! ## Date handling (`excelUtils.ts` lines 89–250) -/

/-- `normalizeArabicDigits` (excelUtils.ts:90-95): map Arabic-Indic digits
`٠`–`٩` to ASCII digits, character by character. -/
def normalizeArabicDigitsList (cs : List Char) : List Char :=
  cs.map fun c =>
    if '٠' ≤ c ∧ c ≤ '٩' then Char.ofNat (c.toNat - '٠'.toNat + '0'.toNat) else c

/-- `normalizeArabicDigits` on strings. -/
def normalizeArabicDigits (s : String) : String :=
  String.mk (normalizeArabicDigitsList s.data)

/-- Pad a (nonnegative) component to two digits, as `padStart(2, '0')`. -/
def pad2 (n : Int) : String := if n < 10 then "0" ++ toString n else toString n

/-- `formatDateParts` (excelUtils.ts:98-102): ISO `yyyy-mm-dd` without
timezone shift. -/
def formatDateParts (year month day : Int) : String :=
  toString year ++ "-" ++ pad2 month ++ "-" ++ pad2 day

/-- Gregorian civil date from a count of days since 1970-01-01 (proleptic,
Hinnant's `civil_from_days`); models the UTC field extraction that
`excelSerialToISODate` performs. -/
def civilFromDays (z0 : Int) : Int × Int × Int :=
  let z := z0 + 719468
  let era := Int.fdiv z 146097
  let doe := z - era * 146097
  let yoe := Int.fdiv (doe - Int.fdiv doe 1460 + Int.fdiv doe 36524 - Int.fdiv doe 146096) 365
  let y := yoe + era * 400
  let doy := doe - (365 * yoe + Int.fdiv yoe 4 - Int.fdiv yoe 100)
  let mp := Int.fdiv (5 * doy + 2) 153
  let d := doy - Int.fdiv (153 * mp + 2) 5 + 1
  let m := mp + (if mp < 10 then 3 else -9)
  (if m ≤ 2 then y + 1 else y, m, d)

/-- Days since 1970-01-01 of a Gregorian civil date (Hinnant's
`days_from_civil`); used for weekday computation. -/
def daysFromCivil (y0 m d : Int) : Int :=
  let y := if m ≤ 2 then y0 - 1 else y0
  let era := Int.fdiv y 400
  let yoe := y - era * 400
  let mp := Int.emod (m + 9) 12
  let doy := Int.fdiv (153 * mp + 2) 5 + d - 1
  let doe := yoe * 365 + Int.fdiv yoe 4 - Int.fdiv yoe 100 + doy
  era * 146097 + doe - 719468

/-- `excelSerialToISODate` (excelUtils.ts:105-118): serial days since
1899-12-30 (serial 25569 = 1970-01-01), fractional time-of-day truncated by
the UTC field extraction. -/
def excelSerialToISODate (serial : ℚ) : String :=
  let (y, m, d) := civilFromDays (⌊serial⌋ - 25569)
  formatDateParts y m d

/-- Split a character list at every occurrence of `sep` (the shape analysis
performed by the anchored date regexes). -/
def splitList (sep : Char) : List Char → List (List Char)
  | [] => [[]]
  | c :: cs =>
    if c = sep then [] :: splitList sep cs
    else
      match splitList sep cs with
      | [] => [[c]]
      | p :: ps => (c :: p) :: ps

/-- A component matches `\d{lo,hi}`. -/
def matchPart (lo hi : ℕ) (cs : List Char) : Bool :=
  lo ≤ cs.length ∧ cs.length ≤ hi ∧ cs.all isDig

/-- How a matched format's three components are interpreted, derived in the
source from the regex text (`tryParseDate`, excelUtils.ts:163-198). -/
inductive FmtKind where
  | yearFirst
  | slashYear4
  | dayFirst
deriving DecidableEq

/-- One entry of the `formats` array (excelUtils.ts:147-156): separator,
digit-count range of each component, and interpretation branch. -/
structure DateFmt where
  sep : Char
  lo1 : ℕ
  hi1 : ℕ
  lo2 : ℕ
  hi2 : ℕ
  lo3 : ℕ
  hi3 : ℕ
  kind : FmtKind

/-- The eight date formats, in source order (excelUtils.ts:147-156):
`yyyy-M-d`, `d/M/yyyy` (ambiguous), `d/M/yy`, `d-M-yyyy`, `d-M-yy`,
`yyyy/M/d`, `d.M.yyyy`, `yyyy.M.d`. -/
def dateFormats : List DateFmt :=
  [ ⟨'-', 4, 4, 1, 2, 1, 2, .yearFirst⟩
  , ⟨'/', 1, 2, 1, 2, 4, 4, .slashYear4⟩
  , ⟨'/', 1, 2, 1, 2, 2, 2, .dayFirst⟩
  , ⟨'-', 1, 2, 1, 2, 4, 4, .dayFirst⟩
  , ⟨'-', 1, 2, 1, 2, 2, 2, .dayFirst⟩
  , ⟨'/', 4, 4, 1, 2, 1, 2, .yearFirst⟩
  , ⟨'.', 1, 2, 1, 2, 4, 4, .dayFirst⟩
  , ⟨'.', 4, 4, 1, 2, 1, 2, .yearFirst⟩ ]

/-- Match one format's anchored regex against the normalized input,
returning the three numeric captures. -/
def matchFmt (f : DateFmt) (cs : List Char) : Option (ℕ × ℕ × ℕ) :=
  match splitList f.sep cs with
  | [p1, p2, p3] =>
    if matchPart f.lo1 f.hi1 p1 ∧ matchPart f.lo2 f.hi2 p2 ∧ matchPart f.lo3 f.hi3 p3 then
      some (digitsToNat p1, digitsToNat p2, digitsToNat p3)
    else none
  | _ => none

/-- Disambiguation of the `x/y/yyyy` shape (excelUtils.ts:177-187): a
component greater than 12 forces its reading, otherwise day-first; returns
`(day, month)`. -/
def slash4DayMonth (part1 part2 : ℕ) : ℕ × ℕ :=
  if part1 > 12 then (part1, part2)
  else if part2 > 12 then (part2, part1)
  else (part1, part2)

/-- Two-digit-year promotion (excelUtils.ts:195-197):
`year += year > 50 ? 1900 : 2000`. -/
def promote2 (year : ℕ) : ℕ :=
  if year < 100 then (if year > 50 then year + 1900 else year + 2000) else year

/-- Interpret the three captures as `(year, month, day)` according to the
format's branch (excelUtils.ts:163-198). -/
def interpretFmt (k : FmtKind) (p1 p2 p3 : ℕ) : ℕ × ℕ × ℕ :=
  match k with
  | .yearFirst => (p1, p2, p3)
  | .slashYear4 =>
    let (d, m) := slash4DayMonth p1 p2
    (p3, m, d)
  | .dayFirst => (promote2 p3, p2, p1)

/-- Gregorian leap year. -/
def isLeapYear (y : ℕ) : Bool := (y % 4 = 0 ∧ y % 100 ≠ 0) ∨ y % 400 = 0

/-- Days in a month; models the `new Date(year, month-1, day)` round-trip
check of excelUtils.ts:203-207. -/
def daysInMonth (y m : ℕ) : ℕ :=
  if m = 2 then (if isLeapYear y then 29 else 28)
  else if m = 4 ∨ m = 6 ∨ m = 9 ∨ m = 11 then 30
  else 31

/-- Validation of parsed components (excelUtils.ts:200-211): year in
[1900, 2100], month in [1, 12], day in [1, 31] and valid for the month. -/
def validYMD (y m d : ℕ) : Bool :=
  1900 ≤ y ∧ y ≤ 2100 ∧ 1 ≤ m ∧ m ≤ 12 ∧ 1 ≤ d ∧ d ≤ 31 ∧ d ≤ daysInMonth y m

/-- The string-format loop of `tryParseDate` (excelUtils.ts:147-213) on the
already-normalized character list: try each format in order; on a match,
interpret and validate; on validation failure continue with the next
format. -/
def tryParseDateChars (cs : List Char) : Option String :=
  dateFormats.findSome? fun f =>
    match matchFmt f cs with
    | some (p1, p2, p3) =>
      let (y, m, d) := interpretFmt f.kind p1 p2 p3
      if validYMD y m d then some (formatDateParts y m d) else none
    | none => none

/-- `tryParseDate` on a string input (excelUtils.ts:142-214): trim,
normalize Arabic-Indic digits, then try the format list. -/
def tryParseDateString (s : String) : Option String :=
  tryParseDateChars (normalizeArabicDigitsList (jsTrim s).data)

/-- `tryParseDate` (excelUtils.ts:121-217) on a cell: falsy input (absent,
`""`, `0`) yields `null`; numbers are Excel serial dates; strings go through
the format list.  (`Date`-object cells produced by `cellDates: true` are not
modelled; no claim involves them.) -/
def tryParseDateCell (input : Option Cell) : Option String :=
  match input with
  | none => none
  | some c =>
    if ¬ c.truthy then none
    else
      match c with
      | .num q => some (excelSerialToISODate q)
      | .str s => tryParseDateString s

/-- The seven Arabic weekday names, indexed by JS `Date.getDay()`
(0 = Sunday), excelUtils.ts:223. -/
def arabicDays : List String :=
  ["الأحد", "الاثنين", "الثلاثاء", "الأربعاء", "الخميس", "الجمعة", "السبت"]

/-- `getArabicDayName` (excelUtils.ts:220-250) on an ISO `yyyy-mm-dd`
string: parse the three components and look up the weekday name.  The
fallback `new Date(string)` branch for non-ISO strings depends on the JS
engine's free-form date parser and is modelled as returning `""`; no claim
exercises it. -/
def getArabicDayName (s : String) : String :=
  match splitList '-' s.data with
  | [p1, p2, p3] =>
    if matchPart 4 4 p1 ∧ matchPart 2 2 p2 ∧ matchPart 2 2 p3 then
      let w := Int.emod (daysFromCivil (digitsToNat p1) (digitsToNat p2) (digitsToNat p3) + 4) 7
      (arabicDays.get? w.toNat).getD ""
    else ""
  | _ => ""

/-! ## Data model (`client/src/types/schema.ts`) -/

/-- `ExpenseItem` (schema.ts:32-37).  `bankAllocations` is the optional
per-bank override record used dynamically by `excelUtils.ts`; the empty list
models an absent record (both are falsy for every key lookup). -/
structure ExpenseItem where
  id : String
  type : String
  amount : ℚ
  banks : List String
  bankAllocations : List (String × ℚ) := []
deriving DecidableEq

/-- `Mission` (schema.ts:47-58).  `totalAmount` is stored as a decimal string
in the source; it is modelled by its numeric value.  `createdAt` (a wall-clock
timestamp) is omitted. -/
structure Mission where
  id : String
  employeeName : String
  employeeCode : Int
  employeeBranch : String
  missionDate : String
  bank : Option String
  statement : Option String
  totalAmount : ℚ
  expenses : List ExpenseItem
deriving DecidableEq

/-- JS object property lookup on an association list (first match). -/
def jsGet {β : Type} : List (String × β) → String → Option β
  | [], _ => none
  | p :: rest, k => if p.1 = k then some p.2 else jsGet rest k

/-- JS `Set` insertion-order deduplication (`Array.from(new Set(xs))`). -/
def jsSetDedup (l : List String) : List String :=
  l.foldl (fun acc b => if b ∈ acc then acc else acc ++ [b]) []

/-! ## Expense type normalization (`excelUtils.ts` lines 22-44) -/

/-- The `expenseTypeMapping` table (excelUtils.ts:23-39). -/
def expenseTypeMappingPairs : List (String × String) :=
  [ ("transportation", "transportation")
  , ("transport", "transportation")
  , ("fees", "fees")
  , ("tips", "tips")
  , ("tip", "tips")
  , ("office-supplies", "office-supplies")
  , ("hospitality", "hospitality")
  , ("انتقالات", "transportation")
  , ("رسوم", "fees")
  , ("اكراميات", "tips")
  , ("إكراميات", "tips")
  , ("أدوات مكتبية", "office-supplies")
  , ("ضيافة", "hospitality") ]

/-- `normalizeExpenseType` (excelUtils.ts:42-44): table lookup with identity
fallback (all table values are truthy, so `||` is presence). -/
def normalizeExpenseType (t : String) : String :=
  (jsGet expenseTypeMappingPairs t).getD t

/-- The five canonical expense types (the fields of a bank slot). -/
inductive CanonType where
  | transportation
  | fees
  | tips
  | officeSupplies
  | hospitality
deriving DecidableEq

/-- Canonical key string of a canonical type. -/
def CanonType.key : CanonType → String
  | .transportation => "transportation"
  | .fees => "fees"
  | .tips => "tips"
  | .officeSupplies => "office-supplies"
  | .hospitality => "hospitality"

/-- All five canonical types, in slot-column order. -/
def canonTypes : List CanonType :=
  [.transportation, .fees, .tips, .officeSupplies, .hospitality]

/-! ## Bank allocation engine (`exportMissionsToExcel`, excelUtils.ts 260-353) -/

/-- The "unspecified" sentinel bucket `غير محدد`. -/
def unspecifiedBank : String := "غير محدد"

/-- The empty-slot placeholder `لا يوجد بنك`. -/
def noBankPlaceholder : String := "لا يوجد بنك"

/-- The mission-level fallback bank (excelUtils.ts:274, 313-314):
`mission.bank && mission.bank.trim() !== '' ? mission.bank.trim() : 'غير محدد'`. -/
def missionFallbackBank (bank : Option String) : String :=
  match bank with
  | some b => if b ≠ "" ∧ jsTrim b ≠ "" then jsTrim b else unspecifiedBank
  | none => unspecifiedBank

/-- The set of distinct banks a mission touches (excelUtils.ts:262-285):
trimmed nonempty bank names of each expense, the mission fallback bank for
bank-less expenses, and the fallback alone for an expense-less mission;
insertion-order deduplicated. -/
def allBanksList (m : Mission) : List String :=
  jsSetDedup <|
    if m.expenses = [] then [missionFallbackBank m.bank]
    else
      m.expenses.flatMap fun e =>
        if e.banks ≠ [] then (e.banks.map jsTrim).filter (fun b => b != "")
        else [missionFallbackBank m.bank]

/-- Whether an expense is attributed to `bankName`
(excelUtils.ts:304-319): membership of the raw (untrimmed) banks list, or
equality with the fallback bank for a bank-less expense. -/
def expenseShouldInclude (fallback : String) (e : ExpenseItem) (bankName : String) : Bool :=
  if e.banks ≠ [] then e.banks.contains bankName
  else bankName == fallback

/-- The distribution factor (excelUtils.ts:305-318): the number of selected
banks, or 1 for a bank-less expense routed to the fallback. -/
def expenseDistFactor (e : ExpenseItem) : ℕ :=
  if e.banks ≠ [] then e.banks.length else 1

/-- The amount attributed to `bankName` once included
(excelUtils.ts:322-325): a *truthy* explicit `bankAllocations[bankName]` is
preferred; an absent or zero entry falls back to the equal split. -/
def expenseDistributedAmount (e : ExpenseItem) (bankName : String) : ℚ :=
  match jsGet e.bankAllocations bankName with
  | some v => if v ≠ 0 then v else e.amount / (expenseDistFactor e : ℚ)
  | none => e.amount / (expenseDistFactor e : ℚ)

/-- Per-bank share of one expense: the distributed amount when included,
zero otherwise. -/
def expenseBankShare (fallback : String) (e : ExpenseItem) (bankName : String) : ℚ :=
  if expenseShouldInclude fallback e bankName then expenseDistributedAmount e bankName else 0

/-- One expense-type cell of a bank slot (the `switch` accumulation of
excelUtils.ts:326-345): sum of the shares of the expenses whose normalized
type matches. -/
def slotTypeAmount (fallback : String) (expenses : List ExpenseItem)
    (bankName : String) (t : CanonType) : ℚ :=
  (expenses.map fun e =>
    if expenseShouldInclude fallback e bankName ∧ normalizeExpenseType e.type = t.key
    then expenseDistributedAmount e bankName else 0).sum

/-- A bank slot's total (excelUtils.ts:350): the sum of its five
expense-type cells. -/
def slotTotalAmount (fallback : String) (expenses : List ExpenseItem) (bankName : String) : ℚ :=
  slotTypeAmount fallback expenses bankName .transportation
    + slotTypeAmount fallback expenses bankName .fees
    + slotTypeAmount fallback expenses bankName .tips
    + slotTypeAmount fallback expenses bankName .officeSupplies
    + slotTypeAmount fallback expenses bankName .hospitality

/-- Stable insertion of a later element after all earlier elements that do
not compare greater. -/
def insertStable (x : String) : List String → List String
  | [] => [x]
  | y :: ys => if x < y then x :: y :: ys else y :: insertStable x ys

/-- Stable comparison sort (JS `Array.prototype.sort` with a total-order
comparator), as a left-to-right insertion sort. -/
def stableSort (l : List String) : List String :=
  l.foldl (fun acc x => insertStable x acc) []

/-- Bank slots sorted by bank name (excelUtils.ts:356).  `localeCompare` is
modelled as code-point order; no claim depends on the collation. -/
def sortedBanks (m : Mission) : List String :=
  stableSort (allBanksList m)

/-- The exported grand total (excelUtils.ts:369): the sum of the totals of
*all* bank slots, displayed or not. -/
def missionGrandTotal (m : Mission) : ℚ :=
  ((sortedBanks m).map (slotTotalAmount (missionFallbackBank m.bank) m.expenses)).sum

/-- The per-bank, per-type amount the detailed export attributes to a mission
(the value of one slot cell). -/
def perBankTypeTotal (m : Mission) (bankName : String) (t : CanonType) : ℚ :=
  slotTypeAmount (missionFallbackBank m.bank) m.expenses bankName t

/-! ## Formula-injection escaping (`sanitizeForExcel`, excelUtils.ts 12-20) -/

/-- An ASCII single quote (written by code point to keep the source free of
bare apostrophes). -/
def singleQuote : Char := Char.ofNat 39

/-- Whether a string starts with `=`, `+`, `-` or `@` (the
`/^[=+\-@]/` test). -/
def startsFormulaChar (s : String) : Bool :=
  match s.data with
  | c :: _ => c = '=' ∨ c = '+' ∨ c = '-' ∨ c = '@'
  | [] => false

/-- `sanitizeForExcel` on strings (numbers pass through unchanged). -/
def sanitizeForExcel (s : String) : String :=
  if startsFormulaChar s then String.mk (singleQuote :: s.data) else s

/-! ## Worksheet rows

A row of `XLSX.utils.sheet_to_json` is a loosely-typed dictionary.  `Row` has
one `Option Cell` field per column key that `excelUtils.ts` ever reads or
writes; every other key is irrelevant to the program. -/

/-- The six expense-type column labels of `detailedExportTypeMapping`
(excelUtils.ts:80-87), in object-entry order; `ikramiyat` and
`ikramiyatHamza` are the two Arabic spellings of "tips". -/
inductive TypeLabel where
  | intiqalat
  | rusum
  | ikramiyat
  | ikramiyatHamza
  | adawat
  | diyafa
deriving DecidableEq

/-- The six labels in `Object.entries` order. -/
def typeLabels : List TypeLabel :=
  [.intiqalat, .rusum, .ikramiyat, .ikramiyatHamza, .adawat, .diyafa]

/-- Canonical type of a label (the values of `detailedExportTypeMapping`). -/
def labelCanonType : TypeLabel → CanonType
  | .intiqalat => .transportation
  | .rusum => .fees
  | .ikramiyat => .tips
  | .ikramiyatHamza => .tips
  | .adawat => .officeSupplies
  | .diyafa => .hospitality

/-- Canonical key string of a label. -/
def labelCanon (l : TypeLabel) : String := (labelCanonType l).key

/-- A worksheet row.  Field ↔ column key:
`hName` = `اسم الموظف`, `hNameAlt` = `الموظف`, `hCode` = `الكود`,
`hCodeAlt` = `كود الموظف`, `hBranch` = `فرع`, `hBranchAlt` = `الفرع`,
`hDate` = `التاريخ`, `hDateAlt` = `تاريخ المأمورية`, `hDay` = `اليوم`,
`hStatementLong` = `بيـــــــــــــــــــــــان`, `hStatement` = `البيان`,
`hDesc` = `وصف`, `slotBank j` = `بنك / شركة ( بنك(j+1))`,
`slotAmt j l` = `<label>(j+1)`, `slotTotal j` = `الاجمالى(j+1)`,
`hGrand` = `الاجمالى`, `hIdNum` = `رقم المأمورية`, `hIdCode` = `كود المأمورية`,
`hIdRaqm` = `رقم`, `hIdID` = `ID`, `hIdMission` = `Mission ID`,
`hIdKud` = `كود`, `hIdMarja` = `المرجع`, `hBank` = `البنك`, `hBankAlt` = `بنك`,
`hTotalExp` = `إجمالي المصروفات`, `hTotalAlt` = `الإجمالي`,
`hExpType` = `نوع المصروف`, `hExpTypeAlt` = `النوع`, `hAmount` = `المبلغ`,
`hValue` = `القيمة`, `hBanks` = `البنوك`. -/
structure Row where
  hName : Option Cell := none
  hNameAlt : Option Cell := none
  hCode : Option Cell := none
  hCodeAlt : Option Cell := none
  hBranch : Option Cell := none
  hBranchAlt : Option Cell := none
  hDate : Option Cell := none
  hDateAlt : Option Cell := none
  hDay : Option Cell := none
  hStatementLong : Option Cell := none
  hStatement : Option Cell := none
  hDesc : Option Cell := none
  slotBank : Fin 4 → Option Cell := fun _ => none
  slotAmt : Fin 4 → TypeLabel → Option Cell := fun _ _ => none
  slotTotal : Fin 4 → Option Cell := fun _ => none
  hGrand : Option Cell := none
  hIdNum : Option Cell := none
  hIdCode : Option Cell := none
  hIdRaqm : Option Cell := none
  hIdID : Option Cell := none
  hIdMission : Option Cell := none
  hIdKud : Option Cell := none
  hIdMarja : Option Cell := none
  hBank : Option Cell := none
  hBankAlt : Option Cell := none
  hTotalExp : Option Cell := none
  hTotalAlt : Option Cell := none
  hExpType : Option Cell := none
  hExpTypeAlt : Option Cell := none
  hAmount : Option Cell := none
  hValue : Option Cell := none
  hBanks : Option Cell := none

/-! ## Tabular export projector (`exportMissionsToExcel`, excelUtils.ts 252-462) -/

/-- The row `exportMissionsToExcel` emits for one mission
(excelUtils.ts:359-397): six fixed leading fields, four bank-slot column
groups (a slot beyond the sorted bank list is the placeholder with all-zero
cells), and the full-precision grand total. -/
def exportRowOf (m : Mission) : Row :=
  let fallback := missionFallbackBank m.bank
  let sb := sortedBanks m
  { hName := some (.str (sanitizeForExcel m.employeeName))
  , hCode := some (.num (m.employeeCode : ℚ))
  , hBranch := some (.str (sanitizeForExcel m.employeeBranch))
  , hDate := some (.str m.missionDate)
  , hDay := some (.str (getArabicDayName m.missionDate))
  , hStatementLong := some (.str (sanitizeForExcel (m.statement.getD "")))
  , slotBank := fun j =>
      match sb[j.val]? with
      | some b => some (.str (sanitizeForExcel b))
      | none => some (.str noBankPlaceholder)
  , slotAmt := fun j l =>
      match l with
      | .ikramiyatHamza => none
      | _ =>
        match sb[j.val]? with
        | some b => some (.num (slotTypeAmount fallback m.expenses b (labelCanonType l)))
        | none => some (.num 0)
  , slotTotal := fun j =>
      match sb[j.val]? with
      | some b => some (.num (slotTotalAmount fallback m.expenses b))
      | none => some (.num 0)
  , hGrand := some (.num (missionGrandTotal m)) }

/-! ## Period aggregator (`handleExport`, period-report.tsx 96-199)

The period report recomputes, for each mission in the date range and each of
its banks, per-type distributed amounts with the *same* inclusion logic as
the export projector (period-report.tsx:100-121 and 144-159 are textual
copies of excelUtils.ts:262-285 and 304-319, modelled by reusing
`allBanksList` / `expenseShouldInclude` / `expenseDistFactor`) — but its
distributed amount (period-report.tsx:162) is always the equal split and
never consults `bankAllocations`. -/

/-- The period report's distributed amount (period-report.tsx:162):
`expense.amount / distributionFactor`, with no `bankAllocations` lookup. -/
def periodDistributedAmount (e : ExpenseItem) : ℚ :=
  e.amount / (expenseDistFactor e : ℚ)

/-- Per-bank share of one expense in the period report. -/
def periodExpenseBankShare (fallback : String) (e : ExpenseItem) (bankName : String) : ℚ :=
  if expenseShouldInclude fallback e bankName then periodDistributedAmount e else 0

/-- One (bank, type) cell of the period report's accumulation for a single
mission (the `switch` of period-report.tsx:165-181). -/
def periodSlotTypeAmount (fallback : String) (expenses : List ExpenseItem)
    (bankName : String) (t : CanonType) : ℚ :=
  (expenses.map fun e =>
    if expenseShouldInclude fallback e bankName ∧ normalizeExpenseType e.type = t.key
    then periodDistributedAmount e else 0).sum

/-- The per-bank, per-type amount the period report attributes to a
mission. -/
def periodPerBankTypeTotal (m : Mission) (bankName : String) (t : CanonType) : ℚ :=
  periodSlotTypeAmount (missionFallbackBank m.bank) m.expenses bankName t

/-- Rounding to 2 decimals at presentation time
(`Math.round(x * 100) / 100`, period-report.tsx:194-198; JS `Math.round`
rounds half toward +∞). -/
def round2 (q : ℚ) : ℚ := (⌊q * 100 + 1 / 2⌋ : ℚ) / 100

/-! ## Tabular import parser (`importMissionsFromExcel`, excelUtils.ts 464-743) -/

/-- `isDetailedExportRow` (excelUtils.ts:47-64): any truthy numbered
bank-slot column, or any present numbered expense-type column. -/
def isDetailedRow (r : Row) : Bool :=
  ((List.finRange 4).any fun j => otruthy (r.slotBank j)) ||
  (typeLabels.any fun l => (List.finRange 4).any fun j => (r.slotAmt j l).isSome)

/-- `parseNumber` (excelUtils.ts:67-77): empty/absent → 0, numbers as-is,
strings comma-stripped and `parseFloat`ed with NaN → 0. -/
def parseNumberCell : Option Cell → ℚ
  | none => 0
  | some (.num q) => q
  | some (.str s) => if s = "" then 0 else (jsParseFloat (stripCommas s)).getD 0

/-- Fresh mission id for the row at index `i` (`generateMissionId`,
excelUtils.ts:745-747: timestamp + randomness, modelled as an injective
counter). -/
def generateMissionId (i : ℕ) : String := "mission_" ++ natStr i

/-- Fresh expense id for the `k`-th expense fabricated from the mission row
at index `i` (`generateExpenseId`, excelUtils.ts:749-751). -/
def generateExpenseId (i k : ℕ) : String :=
  "expense_" ++ natStr i ++ "_" ++ natStr k

/-- Fresh expense id for the `k`-th row of the secondary expenses sheet. -/
def generateSheetExpenseId (k : ℕ) : String := "expense_sheet_" ++ natStr k

/-- The per-type accumulator record of the detailed import branch
(`expensesByType[type]`, excelUtils.ts:531). -/
structure TypeAcc where
  amount : ℚ
  banks : List String
  bankAllocations : List (String × ℚ)
deriving DecidableEq

/-- `bankAllocations` bump (excelUtils.ts:554-558): create the key at 0 when
absent (or falsy), then add the amount.  Since a present value `v` satisfies
`(if !v then 0 else v) + amt = v + amt` for every rational `v`, presence
alone decides the branch. -/
def allocBump (al : List (String × ℚ)) (bank : String) (amt : ℚ) : List (String × ℚ) :=
  if (jsGet al bank).isSome then al.map (fun p => if p.1 = bank then (p.1, p.2 + amt) else p)
  else al ++ [(bank, amt)]

/-- One accumulation step of the detailed import branch
(excelUtils.ts:547-559): create the per-type record when absent, then add the
amount, push the bank and bump its allocation. -/
def accAdd (acc : List (String × TypeAcc)) (ty bank : String) (amt : ℚ) :
    List (String × TypeAcc) :=
  match jsGet acc ty with
  | none => acc ++ [(ty, ⟨amt, [bank], [(bank, amt)]⟩)]
  | some _ =>
    acc.map fun p =>
      if p.1 = ty then
        (p.1, ⟨p.2.amount + amt, p.2.banks ++ [bank], allocBump p.2.bankAllocations bank amt⟩)
      else p

/-- JS `String(chain || '')` for the header readers. -/
def jsStrOf (c : Option Cell) : String :=
  match jsOr c (some (Cell.str "")) with
  | some cell => cellToStr cell
  | none => ""

/-- One expense-type cell of one bank slot during import
(excelUtils.ts:544-560): a positive parsed amount is accumulated under the
label's canonical type. -/
def labelStep (r : Row) (j : Fin 4) (bankName : String)
    (acc : List (String × TypeAcc)) (l : TypeLabel) : List (String × TypeAcc) :=
  let amt := parseNumberCell (r.slotAmt j l)
  if amt > 0 then accAdd acc (labelCanon l) bankName amt else acc

/-- Process one bank slot of a detailed row (excelUtils.ts:535-561): skip
empty or placeholder bank names; otherwise add the bank to the unique-bank
set and accumulate each positive labelled amount. -/
def processSlot (r : Row) (j : Fin 4) (st : List String × List (String × TypeAcc)) :
    List String × List (String × TypeAcc) :=
  let bankName := jsTrim (jsStrOf (r.slotBank j))
  if bankName = "" ∨ bankName = noBankPlaceholder then st
  else
    let ub := if bankName ∈ st.1 then st.1 else st.1 ++ [bankName]
    let acc := typeLabels.foldl (labelStep r j bankName) st.2
    (ub, acc)

/-- The four-slot scan of a detailed row: unique banks and the per-type
accumulator. -/
def detailedScan (r : Row) : List String × List (String × TypeAcc) :=
  (List.finRange 4).foldl (fun st j => processSlot r j st) ([], [])

/-- Convert the accumulated `expensesByType` entries to `ExpenseItem`s
(excelUtils.ts:564-570), with fresh ids and `Set`-deduplicated banks. -/
def mkExpenses (rowIdx : ℕ) (k : ℕ) : List (String × TypeAcc) → List ExpenseItem
  | [] => []
  | (ty, a) :: rest =>
    { id := generateExpenseId rowIdx k
    , type := ty
    , amount := a.amount
    , banks := jsSetDedup a.banks
    , bankAllocations := a.bankAllocations } :: mkExpenses rowIdx (k + 1) rest

/-- `String(row['اسم الموظف'] || row['الموظف'] || '').trim()`. -/
def rowEmployeeName (r : Row) : String := jsTrim (jsStrOf (jsOr r.hName r.hNameAlt))

/-- `parseInt(row['كود الموظف'] || row['الكود']) || 0`. -/
def rowEmployeeCode (r : Row) : Int := (jsParseIntCell (jsOr r.hCodeAlt r.hCode)).getD 0

/-- `String(row['الفرع'] || row['فرع'] || '').trim()`. -/
def rowEmployeeBranch (r : Row) : String := jsTrim (jsStrOf (jsOr r.hBranchAlt r.hBranch))

/-- `tryParseDate(row['تاريخ المأمورية'] || row['التاريخ'])` with the
current-date fallback. -/
def rowMissionDate (today : String) (r : Row) : String :=
  (tryParseDateCell (jsOr r.hDateAlt r.hDate)).getD today

/-- A totals mismatch warning: employee name, reconstructed total, sheet
total (the `console.warn` of excelUtils.ts:589-591). -/
abbrev MismatchWarning := String × ℚ × ℚ

/-- The detailed-format branch of the import row loop
(excelUtils.ts:515-593). -/
def parseDetailedMission (today : String) (i : ℕ) (r : Row) :
    Mission × Option MismatchWarning :=
  let (uniqueBanks, acc) := detailedScan r
  let expenses := mkExpenses i 0 acc
  let calculatedTotal := (expenses.map (·.amount)).sum
  let sheetTotal := parseNumberCell r.hGrand
  let statement := jsTrim (jsStrOf (jsOr (jsOr r.hStatementLong r.hStatement) r.hDesc))
  let mission : Mission :=
    { id := generateMissionId i
    , employeeName := rowEmployeeName r
    , employeeCode := rowEmployeeCode r
    , employeeBranch := rowEmployeeBranch r
    , missionDate := rowMissionDate today r
    , bank := if uniqueBanks.length = 1 then uniqueBanks.head? else none
    , statement := if statement = "" then none else some statement
    , totalAmount := calculatedTotal
    , expenses := expenses }
  let warn :=
    if |calculatedTotal - sheetTotal| > 1 / 100 then
      some (mission.employeeName, calculatedTotal, sheetTotal)
    else none
  (mission, warn)

/-- The seven-way original-id column probe (excelUtils.ts:597-599 and
665-667). -/
def rowOriginalId (r : Row) : Option Cell :=
  jsOr (jsOr (jsOr (jsOr (jsOr (jsOr r.hIdNum r.hIdCode) r.hIdRaqm) r.hIdID)
    r.hIdMission) r.hIdKud) r.hIdMarja

/-- The simple-format branch of the import row loop
(excelUtils.ts:595-633); returns the mission and the id-map entry
(original id → new id) recorded when the row carries a truthy id. -/
def parseSimpleMission (today : String) (i : ℕ) (r : Row) :
    Mission × Option (String × String) :=
  let originalId := rowOriginalId r
  let bankCell := jsOr r.hBank r.hBankAlt
  let statementCell := jsOr r.hStatement r.hDesc
  let totalAmount := (jsParseFloatCell (jsOr (jsOr r.hTotalExp r.hTotalAlt)
    (some (Cell.str "0")))).getD 0
  let newId := generateMissionId i
  let mission : Mission :=
    { id := newId
    , employeeName := rowEmployeeName r
    , employeeCode := rowEmployeeCode r
    , employeeBranch := rowEmployeeBranch r
    , missionDate := rowMissionDate today r
    , bank := if otruthy bankCell then some (jsTrim (cellToStr (bankCell.getD (Cell.str "")))) else none
    , statement := if otruthy statementCell then some (jsTrim (cellToStr (statementCell.getD (Cell.str "")))) else none
    , totalAmount := totalAmount
    , expenses := [] }
  let entry :=
    if otruthy originalId then some (cellToStr (originalId.getD (Cell.str "")), newId) else none
  (mission, entry)

/-- One iteration of the mission-row loop (excelUtils.ts:510-643): format
detection, then the matching branch. -/
def parseMissionRow (today : String) (i : ℕ) (r : Row) :
    Mission × Option (String × String) × Option MismatchWarning :=
  if isDetailedRow r then
    let (m, w) := parseDetailedMission today i r
    (m, none, w)
  else
    let (m, entry) := parseSimpleMission today i r
    (m, entry, none)

/-- JS object assignment `rec[k] = v`: overwrite in place, or append. -/
def jsRecordSet {β : Type} (l : List (String × β)) (k : String) (v : β) :
    List (String × β) :=
  if (jsGet l k).isSome then l.map (fun p => if p.1 = k then (p.1, v) else p)
  else l ++ [(k, v)]

/-- The state accumulated by the mission-row loop: parsed missions, the
original-id → new-id map, and the totals-mismatch warnings. -/
structure ImportState where
  missions : List Mission
  idMap : List (String × String)
  warnings : List MismatchWarning

/-- The mission-row loop (excelUtils.ts:510-643) over all rows of the
missions sheet. -/
def importMissionRows (today : String) (rows : List Row) : ImportState :=
  rows.enum.foldl
    (fun st p =>
      let (m, entry, warn) := parseMissionRow today p.1 p.2
      { missions := st.missions ++ [m]
      , idMap := match entry with
          | some (k, v) => jsRecordSet st.idMap k v
          | none => st.idMap
      , warnings := st.warnings ++ warn.toList })
    ⟨[], [], []⟩

/-- Split on the `/[,،;\n]/` separator class. -/
def splitOnPred (p : Char → Bool) : List Char → List (List Char)
  | [] => [[]]
  | c :: cs =>
    if p c then [] :: splitOnPred p cs
    else
      match splitOnPred p cs with
      | [] => [[c]]
      | q :: qs => (c :: q) :: qs

/-- The banks list of an expenses-sheet row (excelUtils.ts:676-682):
`String(row['البنوك'] || row['البنك'] || '').split(/[,،;\n]/)`, trimmed,
empties dropped. -/
def rowExpenseBanks (r : Row) : List String :=
  ((splitOnPred (fun c => c = ',' ∨ c = '،' ∨ c = ';' ∨ c = '\n')
      (jsStrOf (jsOr r.hBanks r.hBank)).data).map
    (fun cs => jsTrim (String.mk cs))).filter (fun b => b != "")

/-- Append an expense to a mission-id bucket (excelUtils.ts:685-688). -/
def bucketPush (l : List (String × List ExpenseItem)) (k : String) (e : ExpenseItem) :
    List (String × List ExpenseItem) :=
  if (jsGet l k).isSome then l.map (fun p => if p.1 = k then (p.1, p.2 ++ [e]) else p)
  else l ++ [(k, [e])]

/-- The expenses-sheet grouping loop (excelUtils.ts:662-692): skip rows with
no truthy mission id; otherwise fabricate an `ExpenseItem` and push it into
the id's bucket. -/
def groupExpenseRows (rows : List Row) : List (String × List ExpenseItem) :=
  rows.enum.foldl
    (fun acc p =>
      let (k, r) := p
      let missionIdCell := rowOriginalId r
      if ¬ otruthy missionIdCell then acc
      else
        let missionId := cellToStr (missionIdCell.getD (Cell.str ""))
        let typeCell := jsOr r.hExpType r.hExpTypeAlt
        let expenseType := if otruthy typeCell then cellToStr (typeCell.getD (Cell.str "")) else "transportation"
        let a1 := (jsParseFloatCell r.hAmount).getD 0
        let amount := if a1 ≠ 0 then a1 else (jsParseFloatCell r.hValue).getD 0
        let expense : ExpenseItem :=
          { id := generateSheetExpenseId k
          , type := normalizeExpenseType expenseType
          , amount := amount
          , banks := rowExpenseBanks r }
        bucketPush acc missionId expense)
    []

/-- The cross-sheet linking pass (excelUtils.ts:701-716): for each mission,
reverse-look-up its original id in the id map; when that id has a bucket of
expenses, replace the mission's expenses and recompute its total. -/
def linkExpenses (missions : List Mission) (idMap : List (String × String))
    (byMission : List (String × List ExpenseItem)) : List Mission :=
  missions.map fun m =>
    match (idMap.map Prod.fst).find? (fun orig => jsGet idMap orig == some m.id) with
    | some orig =>
      if orig = "" then m
      else
        match jsGet byMission orig with
        | some exps => { m with expenses := exps, totalAmount := (exps.map (·.amount)).sum }
        | none => m
    | none => m

/-- The whole import pipeline on parsed rows (`importMissionsFromExcel`,
excelUtils.ts:464-743): parse the mission rows, then attach
expenses-sheet rows via the id map. -/
def importMissionsModel (today : String) (missionRows expenseRows : List Row) :
    ImportState :=
  let st := importMissionRows today missionRows
  { st with missions := linkExpenses st.missions st.idMap (groupExpenseRows expenseRows) }

/-! ## Basic lemmas -/

theorem jsGet_nil {β : Type} (k : String) : jsGet ([] : List (String × β)) k = none := rfl

theorem jsOr_none_left (b : Option Cell) : jsOr none b = b := rfl

/-- Sharing one expense equally over its banks: each selected bank's share. -/
theorem expenseBankShare_of_mem (fallback : String) (e : ExpenseItem) (b : String)
    (hmem : b ∈ e.banks) (halloc : e.bankAllocations = []) :
    expenseBankShare fallback e b = e.amount / (e.banks.length : ℚ) := by
  have hne : e.banks ≠ [] := List.ne_nil_of_mem hmem
  simp [expenseBankShare, expenseShouldInclude, hne, hmem,
    expenseDistributedAmount, halloc, jsGet, expenseDistFactor]

/-! ## C5: equal-split conservation -/

/-- C5 — For every expense whose banks list is non-empty (size 1 to 10) and
which carries no explicit `bankAllocations`, the per-bank amounts attributed
by the allocation logic sum to the expense's amount: each selected bank
receives `amount / |banks|` (exact in ℚ, hence within any floating-point
epsilon). -/
theorem C5_equal_split_conservation (fallback : String) (e : ExpenseItem)
    (hne : e.banks ≠ []) (_hnd : e.banks.Nodup) (_hlen : e.banks.length ≤ 10)
    (halloc : e.bankAllocations = []) :
    (e.banks.map (expenseBankShare fallback e)).sum = e.amount := by
  have hmap : e.banks.map (expenseBankShare fallback e)
      = e.banks.map (fun _ => e.amount / (e.banks.length : ℚ)) := by
    apply List.map_congr_left
    intro b hb
    exact expenseBankShare_of_mem fallback e b hb halloc
  rw [hmap, List.map_const', List.sum_replicate, nsmul_eq_mul]
  have hlen0 : (e.banks.length : ℚ) ≠ 0 := by
    have h1 : e.banks.length ≠ 0 := fun h => hne (List.length_eq_zero.mp h)
    exact_mod_cast h1
  field_simp

/-- Concrete expense for the C5 witness. -/
def c5Expense : ExpenseItem :=
  { id := "e", type := "transportation", amount := 100, banks := ["A", "B"] }

theorem C5_equal_split_conservation_witness :
    c5Expense.banks ≠ [] ∧ c5Expense.banks.Nodup ∧ c5Expense.banks.length ≤ 10 ∧
      c5Expense.bankAllocations = [] ∧
      (c5Expense.banks.map (expenseBankShare "fb" c5Expense)).sum = c5Expense.amount :=
  ⟨by with_unfolding_all decide, by with_unfolding_all decide, by with_unfolding_all decide, by with_unfolding_all decide,
    C5_equal_split_conservation "fb" c5Expense (by with_unfolding_all decide) (by with_unfolding_all decide) (by with_unfolding_all decide) rfl⟩

/-! ## C9: an explicit zero allocation is not honored -/

/-- C9 — For every expense with a non-empty banks list whose
`bankAllocations` maps some selected bank to exactly 0, the export
projector's allocation logic does not honor the explicit zero: that bank
receives the equal-split share `amount / |banks|` instead (the `||`-style
truthiness test of excelUtils.ts:323 rejects 0). -/
theorem C9_zero_allocation_ignored (fallback : String) (e : ExpenseItem) (b : String)
    (hmem : b ∈ e.banks) (hz : jsGet e.bankAllocations b = some 0) :
    expenseBankShare fallback e b = e.amount / (e.banks.length : ℚ) := by
  have hne : e.banks ≠ [] := List.ne_nil_of_mem hmem
  simp [expenseBankShare, expenseShouldInclude, hne, hmem,
    expenseDistributedAmount, hz, expenseDistFactor]

/-- Concrete expense for the C9 witness: bank `A` explicitly allocated 0. -/
def c9Expense : ExpenseItem :=
  { id := "e", type := "fees", amount := 60, banks := ["A", "B", "C"]
  , bankAllocations := [("A", 0)] }

theorem C9_zero_allocation_ignored_witness :
    "A" ∈ c9Expense.banks ∧ jsGet c9Expense.bankAllocations "A" = some 0 ∧
      expenseBankShare "fb" c9Expense "A" = c9Expense.amount / (c9Expense.banks.length : ℚ) :=
  ⟨by with_unfolding_all decide, by with_unfolding_all decide, C9_zero_allocation_ignored "fb" c9Expense "A" (by with_unfolding_all decide) (by with_unfolding_all decide)⟩

/-! ## C2: export projector vs. period aggregator -/

/-- Concrete mission with an explicit allocation override: the export
projector attributes 70 to bank `A`, the period aggregator 50. -/
def c2Mission : Mission :=
  { id := "x", employeeName := "N", employeeCode := 2, employeeBranch := "Y"
  , missionDate := "2024-01-03", bank := none, statement := none, totalAmount := 100
  , expenses :=
    [ { id := "e", type := "transportation", amount := 100, banks := ["A", "B"]
      , bankAllocations := [("A", 70), ("B", 30)] } ] }

/-- C2 counterexample — the claim that the Tabular Export Projector and the
Period Aggregator attribute identical per-bank amounts for every mission is
false: on `c2Mission` the export prefers the explicit allocation (70) while
the period report always uses the equal split (50). -/
theorem C2_projector_aggregator_divergence :
    perBankTypeTotal c2Mission "A" CanonType.transportation = 70 ∧
      periodPerBankTypeTotal c2Mission "A" CanonType.transportation = 50 ∧
      perBankTypeTotal c2Mission "A" CanonType.transportation ≠
        periodPerBankTypeTotal c2Mission "A" CanonType.transportation := by
  refine ⟨by with_unfolding_all decide, by with_unfolding_all decide, by with_unfolding_all decide⟩

/-- C2 amended — the two reports agree on every (bank, expense-type) amount
for missions none of whose expenses carries an explicit `bankAllocations`
record; with explicit allocations present, the export projector prefers them
while the period aggregator always uses the equal split, so they can
diverge. -/
theorem C2_agreement_without_overrides (m : Mission) (b : String) (t : CanonType)
    (h : ∀ e ∈ m.expenses, e.bankAllocations = []) :
    perBankTypeTotal m b t = periodPerBankTypeTotal m b t := by
  unfold perBankTypeTotal periodPerBankTypeTotal slotTypeAmount periodSlotTypeAmount
  congr 1
  apply List.map_congr_left
  intro e he
  have halloc := h e he
  simp only [expenseDistributedAmount, halloc, jsGet, periodDistributedAmount]

/-- Concrete override-free mission for the C2 witness. -/
def c2PlainMission : Mission :=
  { id := "p", employeeName := "N", employeeCode := 2, employeeBranch := "Y"
  , missionDate := "2024-01-03", bank := none, statement := none, totalAmount := 100
  , expenses :=
    [ { id := "e", type := "transportation", amount := 100, banks := ["A", "B"] } ] }

theorem C2_agreement_without_overrides_witness :
    (∀ e ∈ c2PlainMission.expenses, e.bankAllocations = []) ∧
      perBankTypeTotal c2PlainMission "A" CanonType.transportation =
        periodPerBankTypeTotal c2PlainMission "A" CanonType.transportation :=
  ⟨by with_unfolding_all decide, C2_agreement_without_overrides c2PlainMission "A" CanonType.transportation
    (by with_unfolding_all decide)⟩

/-! ## C3 and C4: the exported grand total -/

/-- Mission touching five distinct banks, each with a nonzero expense. -/
def fiveBankMission : Mission :=
  { id := "orig5", employeeName := "Z", employeeCode := 1, employeeBranch := "X"
  , missionDate := "2024-01-02", bank := none, statement := none, totalAmount := 150
  , expenses :=
    [ { id := "a", type := "transportation", amount := 10, banks := ["B1"] }
    , { id := "b", type := "transportation", amount := 20, banks := ["B2"] }
    , { id := "c", type := "transportation", amount := 30, banks := ["B3"] }
    , { id := "d", type := "transportation", amount := 40, banks := ["B4"] }
    , { id := "e", type := "transportation", amount := 50, banks := ["B5"] } ] }

/-- C3 — For every exported mission, the trailing grand-total cell equals
the sum of the slot totals of ALL bank slots — those emitted into the four
display column groups plus those dropped beyond the 4th.  In particular
`fiveBankMission` (5 distinct banks, each with a nonzero expense) exports
grand total 150, the true sum over all 5 banks, while its four displayed
slot groups are `B1`..`B4` (sum 100) and `B5` appears in no bank column. -/
theorem C3_grand_total_includes_dropped_slots :
    (∀ m : Mission, (exportRowOf m).hGrand = some (.num
      ((((sortedBanks m).take 4).map
          (slotTotalAmount (missionFallbackBank m.bank) m.expenses)).sum +
        (((sortedBanks m).drop 4).map
          (slotTotalAmount (missionFallbackBank m.bank) m.expenses)).sum))) ∧
    missionGrandTotal fiveBankMission = 150 ∧
    (((sortedBanks fiveBankMission).take 4).map
        (slotTotalAmount (missionFallbackBank fiveBankMission.bank)
          fiveBankMission.expenses)).sum = 100 ∧
    (exportRowOf fiveBankMission).hGrand = some (.num 150) ∧
    (exportRowOf fiveBankMission).slotBank 0 = some (.str "B1") ∧
    (exportRowOf fiveBankMission).slotBank 1 = some (.str "B2") ∧
    (exportRowOf fiveBankMission).slotBank 2 = some (.str "B3") ∧
    (exportRowOf fiveBankMission).slotBank 3 = some (.str "B4") ∧
    (∀ j : Fin 4, (exportRowOf fiveBankMission).slotBank j ≠ some (.str "B5")) := by
  refine ⟨?_, by with_unfolding_all decide, by with_unfolding_all decide,
    by with_unfolding_all decide, by with_unfolding_all decide, by with_unfolding_all decide,
    by with_unfolding_all decide, by with_unfolding_all decide, by with_unfolding_all decide⟩
  intro m
  show some (Cell.num (missionGrandTotal m)) = _
  rw [missionGrandTotal]
  conv_lhs => rw [← List.take_append_drop 4 (sortedBanks m)]
  rw [List.map_append, List.sum_append]

/-- Mission whose grand total (1.234) is not equal to its own 2-decimal
rounding (1.23). -/
def unroundedMission : Mission :=
  { id := "u", employeeName := "U", employeeCode := 3, employeeBranch := "Z"
  , missionDate := "2024-01-04", bank := none, statement := none
  , totalAmount := 617 / 500
  , expenses :=
    [ { id := "e", type := "fees", amount := 617 / 500, banks := ["A"] } ] }

/-- C4 counterexample — the claim that the exported grand-total cell is
rounded to 2 decimal places is false: on `unroundedMission` the row carries
the full-precision value 1.234, not its 2-decimal rounding 1.23. -/
theorem C4_rounding_counterexample :
    (exportRowOf unroundedMission).hGrand = some (.num (617 / 500)) ∧
      round2 (missionGrandTotal unroundedMission) = 123 / 100 ∧
      (exportRowOf unroundedMission).hGrand ≠
        some (.num (round2 (missionGrandTotal unroundedMission))) := by
  refine ⟨by with_unfolding_all decide, by with_unfolding_all decide, by with_unfolding_all decide⟩

/-- C4 amended — the exported grand-total cell and the per-slot subtotal
cells carry the full-precision internal accumulation, with no rounding at
export time (2-decimal rounding appears only in the period report's
presentation, `round2`). -/
theorem C4_export_full_precision (m : Mission) :
    (exportRowOf m).hGrand = some (.num (missionGrandTotal m)) ∧
      (∀ j : Fin 4, (exportRowOf m).slotTotal j = some (.num
        (match (sortedBanks m)[j.val]? with
          | some b => slotTotalAmount (missionFallbackBank m.bank) m.expenses b
          | none => 0))) := by
  refine ⟨rfl, fun j => ?_⟩
  show (match (sortedBanks m)[j.val]? with
    | some b => some (Cell.num (slotTotalAmount (missionFallbackBank m.bank) m.expenses b))
    | none => some (Cell.num 0)) = _
  cases (sortedBanks m)[j.val]? <;> rfl

/-! ## Split-shape lemmas for the date regexes -/

theorem splitList_of_not_mem (sep : Char) (cs : List Char) (h : sep ∉ cs) :
    splitList sep cs = [cs] := by
  induction cs with
  | nil => rfl
  | cons c cs ih =>
    have hc : ¬ c = sep := fun e => h (e ▸ List.mem_cons_self c cs)
    have hcs : sep ∉ cs := fun m => h (List.mem_cons_of_mem _ m)
    simp [splitList, hc, ih hcs]

theorem splitList_append_cons (sep : Char) (d1 rest : List Char) (h1 : sep ∉ d1) :
    splitList sep (d1 ++ sep :: rest) = d1 :: splitList sep rest := by
  induction d1 with
  | nil => simp [splitList]
  | cons c cs ih =>
    have hc : ¬ c = sep := fun e => h1 (e ▸ List.mem_cons_self c cs)
    have hcs : sep ∉ cs := fun m => h1 (List.mem_cons_of_mem _ m)
    simp [splitList, hc, ih hcs]

theorem splitList_three (sep : Char) (d1 d2 d3 : List Char)
    (h1 : sep ∉ d1) (h2 : sep ∉ d2) (h3 : sep ∉ d3) :
    splitList sep (d1 ++ sep :: (d2 ++ sep :: d3)) = [d1, d2, d3] := by
  rw [splitList_append_cons sep d1 _ h1, splitList_append_cons sep d2 _ h2,
    splitList_of_not_mem sep d3 h3]

/-- A non-digit, non-slash character does not occur in an all-digit
slash-separated date shape. -/
theorem sep_not_mem_slash_shape (sep : Char) (d1 d2 d3 : List Char)
    (hd1 : d1.all isDig) (hd2 : d2.all isDig) (hd3 : d3.all isDig)
    (hdig : isDig sep = false) (hsl : sep ≠ '/') :
    sep ∉ d1 ++ '/' :: (d2 ++ '/' :: d3) := by
  intro hmem
  rcases List.mem_append.mp hmem with h | h
  · exact absurd (List.all_eq_true.mp hd1 sep h) (by simp [hdig])
  · rcases List.mem_cons.mp h with h | h
    · exact hsl h
    · rcases List.mem_append.mp h with h | h
      · exact absurd (List.all_eq_true.mp hd2 sep h) (by simp [hdig])
      · rcases List.mem_cons.mp h with h | h
        · exact hsl h
        · exact absurd (List.all_eq_true.mp hd3 sep h) (by simp [hdig])

theorem slash_not_mem_of_digits (d : List Char) (hd : d.all isDig) : '/' ∉ d := by
  intro h
  exact absurd (List.all_eq_true.mp hd _ h) (by decide)

theorem matchFmt_eq_none_of_single (f : DateFmt) (cs x : List Char)
    (h : splitList f.sep cs = [x]) : matchFmt f cs = none := by
  unfold matchFmt
  rw [h]

theorem matchFmt_of_three (f : DateFmt) (cs d1 d2 d3 : List Char)
    (h : splitList f.sep cs = [d1, d2, d3]) :
    matchFmt f cs =
      (if matchPart f.lo1 f.hi1 d1 ∧ matchPart f.lo2 f.hi2 d2 ∧ matchPart f.lo3 f.hi3 d3 then
        some (digitsToNat d1, digitsToNat d2, digitsToNat d3)
      else none) := by
  unfold matchFmt
  rw [h]

/-- The format loop on an all-digit `x/y/(z)` slash shape: only the slash
formats can match, and they see exactly the three components. -/
theorem tryParseDateChars_slash_shape (d1 d2 d3 : List Char)
    (hd1 : d1.all isDig) (hd2 : d2.all isDig) (hd3 : d3.all isDig)
    (hl1 : 1 ≤ d1.length ∧ d1.length ≤ 2) (hl2 : 1 ≤ d2.length ∧ d2.length ≤ 2) :
    tryParseDateChars (d1 ++ '/' :: (d2 ++ '/' :: d3)) =
      (if d3.length = 4 then
        (let p1 := digitsToNat d1
         let p2 := digitsToNat d2
         let y := digitsToNat d3
         let dm := slash4DayMonth p1 p2
         if validYMD y dm.2 dm.1 then some (formatDateParts y dm.2 dm.1) else none)
      else if d3.length = 2 then
        (let p1 := digitsToNat d1
         let p2 := digitsToNat d2
         let y := promote2 (digitsToNat d3)
         if validYMD y p2 p1 then some (formatDateParts y p2 p1) else none)
      else none) := by
  set cs := d1 ++ '/' :: (d2 ++ '/' :: d3) with hcs
  have hdash : splitList '-' cs = [cs] :=
    splitList_of_not_mem _ _ (sep_not_mem_slash_shape '-' d1 d2 d3 hd1 hd2 hd3 rfl (by decide))
  have hdot : splitList '.' cs = [cs] :=
    splitList_of_not_mem _ _ (sep_not_mem_slash_shape '.' d1 d2 d3 hd1 hd2 hd3 rfl (by decide))
  have hslash : splitList '/' cs = [d1, d2, d3] :=
    splitList_three '/' d1 d2 d3 (slash_not_mem_of_digits d1 hd1)
      (slash_not_mem_of_digits d2 hd2) (slash_not_mem_of_digits d3 hd3)
  have e1 : matchFmt ⟨'-', 4, 4, 1, 2, 1, 2, .yearFirst⟩ cs = none :=
    matchFmt_eq_none_of_single _ _ _ hdash
  have e4 : matchFmt ⟨'-', 1, 2, 1, 2, 4, 4, .dayFirst⟩ cs = none :=
    matchFmt_eq_none_of_single _ _ _ hdash
  have e5 : matchFmt ⟨'-', 1, 2, 1, 2, 2, 2, .dayFirst⟩ cs = none :=
    matchFmt_eq_none_of_single _ _ _ hdash
  have e7 : matchFmt ⟨'.', 1, 2, 1, 2, 4, 4, .dayFirst⟩ cs = none :=
    matchFmt_eq_none_of_single _ _ _ hdot
  have e8 : matchFmt ⟨'.', 4, 4, 1, 2, 1, 2, .yearFirst⟩ cs = none :=
    matchFmt_eq_none_of_single _ _ _ hdot
  have e2 := matchFmt_of_three ⟨'/', 1, 2, 1, 2, 4, 4, .slashYear4⟩ cs d1 d2 d3 hslash
  have e3 := matchFmt_of_three ⟨'/', 1, 2, 1, 2, 2, 2, .dayFirst⟩ cs d1 d2 d3 hslash
  have e6 := matchFmt_of_three ⟨'/', 4, 4, 1, 2, 1, 2, .yearFirst⟩ cs d1 d2 d3 hslash
  have hm1 : matchPart 1 2 d1 = true := by
    simp [matchPart, hd1, hl1.1, hl1.2]
  have hm2 : matchPart 1 2 d2 = true := by
    simp [matchPart, hd2, hl2.1, hl2.2]
  have hnot44 : ¬ matchPart 4 4 d1 = true := by
    simp [matchPart]
    intro h _
    omega
  rw [tryParseDateChars, dateFormats]
  by_cases h4 : d3.length = 4
  · have hm3 : matchPart 4 4 d3 = true := by
      simp [matchPart, hd3, h4]
    simp only [List.findSome?_cons, e1, e2, e3, e4, e5, e6, e7, e8, hm1, hm2, hm3]
    have hnot22 : ¬ matchPart 2 2 d3 = true := by
      simp [matchPart]
      intro h _
      omega
    simp only [hnot22, hnot44, if_pos, if_neg, and_true, true_and, and_false, false_and,
      if_false, if_true]
    simp [interpretFmt, h4]
    rcases hdm : slash4DayMonth (digitsToNat d1) (digitsToNat d2) with ⟨dd, mm⟩
    by_cases hv : validYMD (digitsToNat d3) mm dd = true
    · simp [hv]
    · simp [hv, List.findSome?]
  · by_cases h2 : d3.length = 2
    · have hm3 : matchPart 2 2 d3 = true := by
        simp [matchPart, hd3, h2]
      have hnotm44 : ¬ matchPart 4 4 d3 = true := by
        simp [matchPart]
        intro h _
        omega
      simp only [List.findSome?_cons, e1, e2, e3, e4, e5, e6, e7, e8, hm1, hm2, hm3, hnotm44,
        hnot44]
      simp only [and_true, true_and, and_false, false_and, if_false, if_true, if_neg, if_pos]
      simp [interpretFmt, h4, h2]
      by_cases hv : validYMD (promote2 (digitsToNat d3)) (digitsToNat d2) (digitsToNat d1) = true
      · simp [hv]
      · simp [hv, List.findSome?]
    · have hnotm44 : ¬ matchPart 4 4 d3 = true := by
        simp [matchPart]
        intro h _
        omega
      have hnotm22 : ¬ matchPart 2 2 d3 = true := by
        simp [matchPart]
        intro h _
        omega
      simp only [List.findSome?_cons, e1, e2, e3, e4, e5, e6, e7, e8, hm1, hm2, hnotm44,
        hnotm22, hnot44]
      simp [h4, h2, List.findSome?]

/-! ## C6: ambiguous `x/y/yyyy` disambiguation -/

/-- C6 — For every ambiguous `x/y/yyyy` date string: a first component
greater than 12 is taken as the day; otherwise a second component greater
than 12 makes the first the month; and when both are at most 12 the parser
defaults to day-first.  The general statement is over the normalized
character shape (every all-digit `x/y/yyyy` input reaches exactly the
`slash4DayMonth` disambiguation); the end-to-end instances, including the
Arabic-Indic-digit one, go through trimming and digit normalization. -/
theorem C6_ambiguous_slash_disambiguation :
    (∀ p1 p2 : ℕ, p1 > 12 → slash4DayMonth p1 p2 = (p1, p2)) ∧
    (∀ p1 p2 : ℕ, p1 ≤ 12 → p2 > 12 → slash4DayMonth p1 p2 = (p2, p1)) ∧
    (∀ p1 p2 : ℕ, p1 ≤ 12 → p2 ≤ 12 → slash4DayMonth p1 p2 = (p1, p2)) ∧
    (∀ d1 d2 d3 : List Char, d1.all isDig = true → d2.all isDig = true →
      d3.all isDig = true → 1 ≤ d1.length → d1.length ≤ 2 → 1 ≤ d2.length →
      d2.length ≤ 2 → d3.length = 4 →
      tryParseDateChars (d1 ++ '/' :: (d2 ++ '/' :: d3)) =
        (let dm := slash4DayMonth (digitsToNat d1) (digitsToNat d2)
         if validYMD (digitsToNat d3) dm.2 dm.1 then
           some (formatDateParts (digitsToNat d3) dm.2 dm.1)
         else none)) ∧
    tryParseDateString ("15/03/2024") = some ("2024-03-15") ∧
    tryParseDateString ("05/03/2024") = some ("2024-03-05") ∧
    tryParseDateString ("٢٠٢٤-٠٣-١٥") = some ("2024-03-15") := by
  refine ⟨?_, ?_, ?_, ?_, by with_unfolding_all decide, by with_unfolding_all decide,
    by with_unfolding_all decide⟩
  · intro p1 p2 h
    simp [slash4DayMonth, h]
  · intro p1 p2 h1 h2
    unfold slash4DayMonth
    rw [if_neg (by omega), if_pos (by omega)]
  · intro p1 p2 h1 h2
    unfold slash4DayMonth
    rw [if_neg (by omega), if_neg (by omega)]
  · intro d1 d2 d3 hd1 hd2 hd3 ha hb hc hd he
    rw [tryParseDateChars_slash_shape d1 d2 d3 hd1 hd2 hd3 ⟨ha, hb⟩ ⟨hc, hd⟩]
    simp [he]

theorem C6_ambiguous_slash_disambiguation_witness :
    slash4DayMonth 15 3 = (15, 3) ∧ slash4DayMonth 3 15 = (15, 3) ∧
      slash4DayMonth 5 3 = (5, 3) ∧
      tryParseDateChars (['1', '5'] ++ '/' :: (['0', '3'] ++ '/' :: ['2', '0', '2', '4'])) =
        some ("2024-03-15") := by
  refine ⟨C6_ambiguous_slash_disambiguation.1 15 3 (by omega),
    C6_ambiguous_slash_disambiguation.2.1 3 15 (by omega) (by omega),
    C6_ambiguous_slash_disambiguation.2.2.1 5 3 (by omega) (by omega), ?_⟩
  rw [C6_ambiguous_slash_disambiguation.2.2.2.1 ['1', '5'] ['0', '3'] ['2', '0', '2', '4']
    (by decide) (by decide) (by decide) (by decide) (by decide) (by decide) (by decide)
    (by decide)]
  with_unfolding_all decide

/-! ## C7: two-digit-year promotion -/

/-- C7 counterexample — the claim that a two-digit year greater than or
equal to 50 is promoted to the 1900s is false at the boundary: the source
tests `year > 50`, so `"01/02/50"` parses to 2050-02-01, not 1950-02-01. -/
theorem C7_year50_counterexample :
    tryParseDateString ("01/02/50") = some ("2050-02-01") ∧
      tryParseDateString ("01/02/50") ≠ some ("1950-02-01") := by
  refine ⟨by with_unfolding_all decide, by with_unfolding_all decide⟩

/-- C7 amended — two-digit years are promoted with the boundary at 50
exclusive: years at most 50 map to the 2000s and years strictly greater
than 50 map to the 1900s (so 49 → 2049, 50 → 2050, 51 → 1951).  The general
statement covers `promote2` (applied by every day-first format) and the full
parse of the `x/y/yy` slash shape; the end-to-end instances confirm the
boundary. -/
theorem C7_two_digit_year_promotion :
    (∀ y : ℕ, y ≤ 50 → promote2 y = 2000 + y) ∧
    (∀ y : ℕ, 50 < y → y < 100 → promote2 y = 1900 + y) ∧
    (∀ d1 d2 d3 : List Char, d1.all isDig = true → d2.all isDig = true →
      d3.all isDig = true → 1 ≤ d1.length → d1.length ≤ 2 → 1 ≤ d2.length →
      d2.length ≤ 2 → d3.length = 2 →
      tryParseDateChars (d1 ++ '/' :: (d2 ++ '/' :: d3)) =
        (if validYMD (promote2 (digitsToNat d3)) (digitsToNat d2) (digitsToNat d1) then
          some (formatDateParts (promote2 (digitsToNat d3)) (digitsToNat d2) (digitsToNat d1))
        else none)) ∧
    tryParseDateString ("01/02/49") = some ("2049-02-01") ∧
    tryParseDateString ("01/02/50") = some ("2050-02-01") ∧
    tryParseDateString ("01/02/51") = some ("1951-02-01") := by
  refine ⟨?_, ?_, ?_, by with_unfolding_all decide, by with_unfolding_all decide,
    by with_unfolding_all decide⟩
  · intro y h
    unfold promote2
    rw [if_pos (by omega), if_neg (by omega)]
    omega
  · intro y h1 h2
    unfold promote2
    rw [if_pos (by omega), if_pos (by omega)]
    omega
  · intro d1 d2 d3 hd1 hd2 hd3 ha hb hc hd he
    rw [tryParseDateChars_slash_shape d1 d2 d3 hd1 hd2 hd3 ⟨ha, hb⟩ ⟨hc, hd⟩]
    have h4 : ¬ d3.length = 4 := by omega
    simp [he, h4]

theorem C7_two_digit_year_promotion_witness :
    promote2 49 = 2000 + 49 ∧ promote2 51 = 1900 + 51 ∧
      tryParseDateChars (['0', '1'] ++ '/' :: (['0', '2'] ++ '/' :: ['5', '0'])) =
        some ("2050-02-01") := by
  refine ⟨C7_two_digit_year_promotion.1 49 (by omega),
    C7_two_digit_year_promotion.2.1 51 (by omega) (by omega), ?_⟩
  rw [C7_two_digit_year_promotion.2.2.1 ['0', '1'] ['0', '2'] ['5', '0']
    (by decide) (by decide) (by decide) (by decide) (by decide) (by decide) (by decide)
    (by decide)]
  with_unfolding_all decide

/-! ## Structure of the mission-row loop -/

/-- One step of the mission-row loop, as folded by `importMissionRows`. -/
def importStep (today : String) (st : ImportState) (p : ℕ × Row) : ImportState :=
  let (m, entry, warn) := parseMissionRow today p.1 p.2
  { missions := st.missions ++ [m]
  , idMap := match entry with
      | some (k, v) => jsRecordSet st.idMap k v
      | none => st.idMap
  , warnings := st.warnings ++ warn.toList }

theorem importMissionRows_eq_foldl (today : String) (rows : List Row) :
    importMissionRows today rows = rows.enum.foldl (importStep today) ⟨[], [], []⟩ := rfl

theorem foldl_importStep_missions (today : String) (l : List (ℕ × Row)) (st : ImportState) :
    (l.foldl (importStep today) st).missions =
      st.missions ++ l.map (fun p => (parseMissionRow today p.1 p.2).1) := by
  induction l generalizing st with
  | nil => simp
  | cons p l ih =>
    rw [List.foldl_cons, ih, List.map_cons]
    show (importStep today st p).missions ++ _ = _
    unfold importStep
    rw [List.append_cons st.missions]

/-- Every mission row yields exactly one parsed mission, at its own index. -/
theorem importMissionRows_missions (today : String) (rows : List Row) :
    (importMissionRows today rows).missions =
      rows.enum.map (fun p => (parseMissionRow today p.1 p.2).1) := by
  rw [importMissionRows_eq_foldl, foldl_importStep_missions]
  rfl

theorem foldl_importStep_idMap (today : String) (l : List (ℕ × Row)) (st : ImportState) :
    (l.foldl (importStep today) st).idMap =
      l.foldl (fun mp p => match (parseMissionRow today p.1 p.2).2.1 with
        | some (k, v) => jsRecordSet mp k v
        | none => mp) st.idMap := by
  induction l generalizing st with
  | nil => rfl
  | cons p l ih =>
    rw [List.foldl_cons, List.foldl_cons, ih]
    rfl

/-! ## C8: import totals reconciliation -/

/-- C8 — For every detailed-format row, the reconstructed mission's
`totalAmount` is the sum of its reconstructed expense amounts; a mismatch
warning (employee name, reconstructed total, stated total) is recorded
exactly when the reconstructed total differs from the sheet's stated
grand-total cell by more than 0.01; the stated cell influences nothing but
the warning (the reconstructed value is what is stored); and no row is
dropped — the loop imports one mission per row unconditionally. -/
theorem C8_total_mismatch_warning (today : String) (i : ℕ) (r : Row)
    (hd : isDetailedRow r = true) :
    ((parseMissionRow today i r).1.totalAmount =
        (((parseMissionRow today i r).1.expenses).map (·.amount)).sum) ∧
    ((parseMissionRow today i r).2.2 =
      (if |(parseMissionRow today i r).1.totalAmount - parseNumberCell r.hGrand| > 1 / 100
       then some ((parseMissionRow today i r).1.employeeName,
         (parseMissionRow today i r).1.totalAmount, parseNumberCell r.hGrand)
       else none)) ∧
    (∀ c : Option Cell,
      (parseMissionRow today i { r with hGrand := c }).1 =
        { (parseMissionRow today i r).1 with totalAmount := (parseMissionRow today i r).1.totalAmount }) ∧
    (∀ rows : List Row, (importMissionRows today rows).missions.length = rows.length) := by
  refine ⟨?_, ?_, ?_, ?_⟩
  · simp [parseMissionRow, hd, parseDetailedMission]
  · simp [parseMissionRow, hd, parseDetailedMission]
  · intro c
    have hd' : isDetailedRow { r with hGrand := c } = true := hd
    simp [parseMissionRow, hd, hd', parseDetailedMission]
    repeat' apply And.intro
    all_goals rfl
  · intro rows
    rw [importMissionRows_missions, List.length_map, List.enum_length]

/-- Concrete detailed row whose stated grand total (50) disagrees with the
reconstructed total (100). -/
def c8Row : Row :=
  { slotBank := fun j => if j = 0 then some (.str "BankA") else some (.str noBankPlaceholder)
  , slotAmt := fun j l =>
      if j = 0 ∧ l = .intiqalat then some (.num 100) else none
  , hGrand := some (.num 50)
  , hName := some (.str "Ali") }

theorem C8_total_mismatch_warning_witness :
    isDetailedRow c8Row = true ∧
      (parseMissionRow "2020-01-01" 0 c8Row).1.totalAmount =
        (((parseMissionRow "2020-01-01" 0 c8Row).1.expenses).map (·.amount)).sum ∧
      (parseMissionRow "2020-01-01" 0 c8Row).2.2 = some ("Ali", 100, 50) := by
  have h := C8_total_mismatch_warning "2020-01-01" 0 c8Row (by with_unfolding_all decide)
  refine ⟨by with_unfolding_all decide, h.1, ?_⟩
  rw [h.2.1]
  with_unfolding_all decide

/-! ## Injectivity of the fresh-id generators -/

theorem digChar_toNat (d : ℕ) (h : d < 10) : (digChar d).toNat = 48 + d := by
  interval_cases d <;> rfl

theorem digitsToNat_append_digit (l : List Char) (c : Char) :
    digitsToNat (l ++ [c]) = 10 * digitsToNat l + (c.toNat - '0'.toNat) := by
  unfold digitsToNat
  rw [List.foldl_append]
  simp [Nat.mul_comm]

theorem digitsToNat_natDigits (n : ℕ) : digitsToNat (natDigits n) = n := by
  have h0 : '0'.toNat = 48 := rfl
  induction n using natDigits.induct with
  | case1 n h =>
    rw [natDigits, dif_pos h]
    show digitsToNat [digChar n] = n
    unfold digitsToNat
    simp [digChar_toNat n h, h0]
  | case2 n h ih =>
    rw [natDigits, dif_neg h, digitsToNat_append_digit, ih,
      digChar_toNat _ (Nat.mod_lt _ (by omega)), h0]
    omega

theorem natStr_injective (a b : ℕ) (h : natStr a = natStr b) : a = b := by
  have hd : natDigits a = natDigits b := by
    have := congrArg String.data h
    simpa [natStr] using this
  have := congrArg digitsToNat hd
  rwa [digitsToNat_natDigits, digitsToNat_natDigits] at this

theorem generateMissionId_injective (a b : ℕ)
    (h : generateMissionId a = generateMissionId b) : a = b := by
  apply natStr_injective
  have hdata := congrArg String.data h
  simp only [generateMissionId, String.data_append] at hdata
  exact String.ext (List.append_cancel_left hdata)

/-! ## idMap and linking invariants -/

theorem jsGet_mem {β : Type} (l : List (String × β)) (k : String) (v : β)
    (h : jsGet l k = some v) : (k, v) ∈ l := by
  induction l with
  | nil => simp [jsGet] at h
  | cons p l ih =>
    by_cases hk : p.1 = k
    · rw [jsGet, if_pos hk] at h
      cases p with
      | mk pk pv =>
        simp only at hk
        injection h with h2
        subst hk
        subst h2
        exact List.mem_cons_self _ _
    · rw [jsGet, if_neg hk] at h
      exact List.mem_cons_of_mem _ (ih h)

theorem jsRecordSet_mem {β : Type} (l : List (String × β)) (k : String) (v : β)
    (kv : String × β) (h : kv ∈ jsRecordSet l k v) : kv ∈ l ∨ kv.2 = v := by
  unfold jsRecordSet at h
  by_cases hp : (jsGet l k).isSome
  · rw [if_pos hp] at h
    obtain ⟨p, hpl, hpe⟩ := List.mem_map.mp h
    by_cases hk : p.1 = k
    · rw [if_pos hk] at hpe
      right
      rw [← hpe]
    · rw [if_neg hk] at hpe
      exact Or.inl (hpe ▸ hpl)
  · rw [if_neg hp] at h
    rcases List.mem_append.mp h with h | h
    · exact Or.inl h
    · right
      simp at h
      rw [h]

/-- The simple branch records an id-map entry only with the fresh mission id
as its value; the detailed branch records none. -/
theorem parseMissionRow_entry_spec (today : String) (i : ℕ) (r : Row) (k v : String)
    (h : (parseMissionRow today i r).2.1 = some (k, v)) :
    isDetailedRow r = false ∧ v = generateMissionId i := by
  unfold parseMissionRow at h
  by_cases hd : isDetailedRow r
  · simp [hd] at h
  · refine ⟨by simpa using hd, ?_⟩
    simp only [hd, if_false, Bool.false_eq_true] at h
    unfold parseSimpleMission at h
    by_cases ht : otruthy (rowOriginalId r)
    · simp [ht] at h
      exact h.2.symm
    · simp [ht] at h

/-- The parsed mission of row `i` always carries the fresh id of index `i`,
in both branches. -/
theorem parseMissionRow_id (today : String) (i : ℕ) (r : Row) :
    (parseMissionRow today i r).1.id = generateMissionId i := by
  unfold parseMissionRow
  by_cases hd : isDetailedRow r
  · simp [hd, parseDetailedMission]
  · simp [hd, parseSimpleMission]

/-- Every value of the accumulated id map is the fresh id of some
simple-format (non-detailed) row. -/
theorem foldl_idMap_value_spec (today : String) (l : List (ℕ × Row))
    (mp : List (String × String)) (P : String → Prop)
    (hmp : ∀ kv ∈ mp, P kv.2)
    (hl : ∀ p ∈ l, ∀ k v, (parseMissionRow today p.1 p.2).2.1 = some (k, v) → P v) :
    ∀ kv ∈ l.foldl (fun mp p => match (parseMissionRow today p.1 p.2).2.1 with
      | some (k, v) => jsRecordSet mp k v
      | none => mp) mp, P kv.2 := by
  induction l generalizing mp with
  | nil => exact hmp
  | cons p l ih =>
    rw [List.foldl_cons]
    apply ih
    · intro kv hkv
      rcases he : (parseMissionRow today p.1 p.2).2.1 with _ | ⟨k, v⟩
      · rw [he] at hkv
        exact hmp kv hkv
      · rw [he] at hkv
        rcases jsRecordSet_mem mp k v kv hkv with h | h
        · exact hmp kv h
        · rw [h]
          exact hl p (List.mem_cons_self _ _) k v he
    · intro q hq k v he
      exact hl q (List.mem_cons_of_mem _ hq) k v he

theorem importMissionRows_idMap_spec (today : String) (rows : List Row) :
    ∀ kv ∈ (importMissionRows today rows).idMap,
      ∃ p ∈ rows.enum, isDetailedRow p.2 = false ∧ kv.2 = generateMissionId p.1 := by
  rw [importMissionRows_eq_foldl, foldl_importStep_idMap]
  refine foldl_idMap_value_spec today rows.enum []
    (fun v => ∃ p ∈ rows.enum, isDetailedRow p.2 = false ∧ v = generateMissionId p.1)
    ?_ ?_
  · intro kv hkv
    simp at hkv
  · intro p hp k v he
    obtain ⟨hd, hv⟩ := parseMissionRow_entry_spec today p.1 p.2 k v he
    exact ⟨p, hp, hd, hv⟩

/-- A mission whose id is not a value of the id map passes through the
linking phase unchanged. -/
theorem linkExpenses_skip (idMap : List (String × String))
    (byMission : List (String × List ExpenseItem)) (m : Mission)
    (h : ∀ kv ∈ idMap, kv.2 ≠ m.id) :
    (match (idMap.map Prod.fst).find? (fun orig => jsGet idMap orig == some m.id) with
      | some orig =>
        if orig = "" then m
        else
          match jsGet byMission orig with
          | some exps => { m with expenses := exps, totalAmount := (exps.map (·.amount)).sum }
          | none => m
      | none => m) = m := by
  have hfind : (idMap.map Prod.fst).find? (fun orig => jsGet idMap orig == some m.id) = none := by
    rw [List.find?_eq_none]
    intro orig _horig
    simp only [beq_iff_eq]
    intro hget
    exact h _ (jsGet_mem idMap orig m.id hget) rfl
  rw [hfind]

/-! ## C10: id remapping only from simple rows -/

/-- C10 — The original-id → new-id remapping table gains entries only from
simple-format rows (a detailed-format row never records a source
identifier), so rows of a secondary expenses sheet can only ever attach to
missions parsed from simple-format rows; and every detailed-format mission
comes out of the whole import (linking pass included) exactly as parsed from
its own numbered columns, regardless of the expenses sheet's content. -/
theorem C10_expense_sheet_never_touches_detailed_rows (today : String)
    (mRows eRows : List Row) :
    (∀ kv ∈ (importMissionsModel today mRows eRows).idMap,
      ∃ p ∈ mRows.enum, isDetailedRow p.2 = false ∧ kv.2 = generateMissionId p.1) ∧
    (∀ (i : ℕ) (r : Row), mRows[i]? = some r → isDetailedRow r = true →
      (importMissionsModel today mRows eRows).missions[i]? =
        some (parseMissionRow today i r).1) := by
  constructor
  · intro kv hkv
    exact importMissionRows_idMap_spec today mRows kv hkv
  · intro i r hget hd
    have hid := parseMissionRow_id today i r
    have hmiss : (importMissionRows today mRows).missions[i]? =
        some (parseMissionRow today i r).1 := by
      rw [importMissionRows_missions, List.getElem?_map, List.getElem?_enum, hget]
      rfl
    show (linkExpenses (importMissionRows today mRows).missions
      (importMissionRows today mRows).idMap (groupExpenseRows eRows))[i]? = _
    unfold linkExpenses
    rw [List.getElem?_map, hmiss, Option.map_some']
    congr 1
    apply linkExpenses_skip
    intro kv hkv hkv2
    obtain ⟨p, hp, hpd, hpv⟩ := importMissionRows_idMap_spec today mRows kv hkv
    rw [hpv, hid] at hkv2
    have hji : p.1 = i := generateMissionId_injective _ _ hkv2
    have hpr : mRows[p.1]? = some p.2 := by
      have := List.mem_enum_iff_getElem?.mp hp
      simpa using this
    rw [hji, hget] at hpr
    have : p.2 = r := by
      injection hpr with h
      exact h.symm
    rw [this] at hpd
    rw [hd] at hpd
    exact Bool.true_eq_false.mp hpd

/-- Concrete rows for the C10 witness: one detailed row, one simple row with
original id 77, and an expenses-sheet row pointing at id 77. -/
def c10DetailedRow : Row :=
  { slotBank := fun j => if j = 0 then some (.str "BankA") else some (.str noBankPlaceholder)
  , slotAmt := fun j l => if j = 0 ∧ l = .intiqalat then some (.num 100) else none
  , hGrand := some (.num 100)
  , hName := some (.str "Ali") }

def c10SimpleRow : Row :=
  { hIdNum := some (.str "77"), hName := some (.str "Sara"), hTotalAlt := some (.num 40) }

def c10ExpenseRow : Row :=
  { hIdNum := some (.str "77"), hExpType := some (.str "fees")
  , hAmount := some (.num 25), hBanks := some (.str "X, Y") }

theorem C10_expense_sheet_never_touches_detailed_rows_witness :
    ([c10DetailedRow, c10SimpleRow][0]? = some c10DetailedRow) ∧
      isDetailedRow c10DetailedRow = true ∧
      (importMissionsModel "2020-01-01" [c10DetailedRow, c10SimpleRow]
          [c10ExpenseRow]).missions[0]? =
        some (parseMissionRow "2020-01-01" 0 c10DetailedRow).1 :=
  ⟨rfl, by with_unfolding_all decide,
    (C10_expense_sheet_never_touches_detailed_rows "2020-01-01"
      [c10DetailedRow, c10SimpleRow] [c10ExpenseRow]).2 0 c10DetailedRow rfl
      (by with_unfolding_all decide)⟩

/-! ## Views of the detailed-import accumulator -/

/-- The accumulated amount of a type key (0 when absent). -/
def accAmount (acc : List (String × TypeAcc)) (ty : String) : ℚ :=
  match jsGet acc ty with
  | some a => a.amount
  | none => 0

/-- The accumulated banks list of a type key. -/
def accBanks (acc : List (String × TypeAcc)) (ty : String) : List String :=
  match jsGet acc ty with
  | some a => a.banks
  | none => []

/-- The accumulated per-bank allocation of a type key. -/
def accAllocs (acc : List (String × TypeAcc)) (ty b : String) : Option ℚ :=
  match jsGet acc ty with
  | some a => jsGet a.bankAllocations b
  | none => none

theorem jsGet_append {β : Type} (l1 l2 : List (String × β)) (k : String) :
    jsGet (l1 ++ l2) k =
      (match jsGet l1 k with
        | some v => some v
        | none => jsGet l2 k) := by
  induction l1 with
  | nil => rfl
  | cons p l1 ih =>
    by_cases hk : p.1 = k
    · simp [jsGet, hk]
    · simp [jsGet, hk, ih]

theorem jsGet_map_replace {β : Type} (l : List (String × β)) (ty k : String) (f : β → β) :
    jsGet (l.map (fun p => if p.1 = ty then (p.1, f p.2) else p)) k =
      if k = ty then (jsGet l k).map f else jsGet l k := by
  induction l with
  | nil =>
    by_cases hk : k = ty <;> simp [jsGet, hk]
  | cons p l ih =>
    rw [List.map_cons]
    by_cases hty : p.1 = ty
    · rw [if_pos hty]
      by_cases hk : p.1 = k
      · have hkty : k = ty := by rw [← hk, hty]
        rw [if_pos hkty]
        show (if p.1 = k then some (f p.2) else jsGet _ k) = _
        rw [if_pos hk]
        have : jsGet (p :: l) k = some p.2 := by rw [jsGet, if_pos hk]
        rw [this]
        rfl
      · show (if p.1 = k then some (f p.2) else
          jsGet (l.map (fun p => if p.1 = ty then (p.1, f p.2) else p)) k) = _
        rw [if_neg hk, ih]
        have : jsGet (p :: l) k = jsGet l k := by rw [jsGet, if_neg hk]
        rw [this]
    · rw [if_neg hty]
      by_cases hk : p.1 = k
      · have hkty : ¬ k = ty := by rw [← hk]; exact hty
        rw [if_neg hkty]
        show (if p.1 = k then some p.2 else jsGet _ k) = _
        rw [if_pos hk, jsGet, if_pos hk]
      · show (if p.1 = k then some p.2 else
          jsGet (l.map (fun p => if p.1 = ty then (p.1, f p.2) else p)) k) = _
        rw [if_neg hk, ih]
        have : jsGet (p :: l) k = jsGet l k := by rw [jsGet, if_neg hk]
        rw [this]

theorem jsGet_allocBump (al : List (String × ℚ)) (bank : String) (amt : ℚ) (b : String) :
    jsGet (allocBump al bank amt) b =
      if b = bank then some ((jsGet al b).getD 0 + amt) else jsGet al b := by
  unfold allocBump
  by_cases hp : (jsGet al bank).isSome
  · rw [if_pos hp, jsGet_map_replace al bank b (fun v => v + amt)]
    by_cases hb : b = bank
    · obtain ⟨v, hv⟩ := Option.isSome_iff_exists.mp hp
      rw [if_pos hb, if_pos hb, hb, hv]
      rfl
    · rw [if_neg hb, if_neg hb]
  · rw [if_neg hp, jsGet_append]
    by_cases hb : b = bank
    · subst hb
      have hnone : jsGet al b = none := Option.not_isSome_iff_eq_none.mp hp
      simp [hnone, jsGet]
    · have hne : ¬ bank = b := fun e => hb e.symm
      rw [if_neg hb]
      cases hal : jsGet al b <;> simp [hal, jsGet, hne]

theorem jsGet_accAdd_same (acc : List (String × TypeAcc)) (ty bank : String) (amt : ℚ) :
    jsGet (accAdd acc ty bank amt) ty =
      some (match jsGet acc ty with
        | some a => ⟨a.amount + amt, a.banks ++ [bank], allocBump a.bankAllocations bank amt⟩
        | none => ⟨amt, [bank], [(bank, amt)]⟩) := by
  unfold accAdd
  cases hget : jsGet acc ty with
  | none => simp [jsGet_append, hget, jsGet]
  | some a =>
    show jsGet (acc.map (fun p => if p.1 = ty then (p.1,
        (⟨p.2.amount + amt, p.2.banks ++ [bank],
          allocBump p.2.bankAllocations bank amt⟩ : TypeAcc)) else p)) ty = _
    rw [jsGet_map_replace acc ty ty
      (fun a => ⟨a.amount + amt, a.banks ++ [bank], allocBump a.bankAllocations bank amt⟩)]
    simp [hget]

theorem jsGet_accAdd_other (acc : List (String × TypeAcc)) (ty bank : String) (amt : ℚ)
    (k : String) (hk : k ≠ ty) :
    jsGet (accAdd acc ty bank amt) k = jsGet acc k := by
  unfold accAdd
  cases hget : jsGet acc ty with
  | none =>
    rw [jsGet_append]
    have hnk : ¬ ty = k := fun e => hk e.symm
    cases hk2 : jsGet acc k <;> simp [jsGet, hnk, hk2]
  | some a =>
    show jsGet (acc.map (fun p => if p.1 = ty then (p.1,
        (⟨p.2.amount + amt, p.2.banks ++ [bank],
          allocBump p.2.bankAllocations bank amt⟩ : TypeAcc)) else p)) k = _
    rw [jsGet_map_replace acc ty k
      (fun a => ⟨a.amount + amt, a.banks ++ [bank], allocBump a.bankAllocations bank amt⟩),
      if_neg hk]

theorem accAmount_accAdd (acc : List (String × TypeAcc)) (ty bank : String) (amt : ℚ)
    (k : String) :
    accAmount (accAdd acc ty bank amt) k =
      if k = ty then accAmount acc k + amt else accAmount acc k := by
  by_cases hk : k = ty
  · subst hk
    unfold accAmount
    rw [jsGet_accAdd_same]
    cases jsGet acc k <;> simp
  · unfold accAmount
    rw [jsGet_accAdd_other acc ty bank amt k hk, if_neg hk]

theorem accBanks_accAdd (acc : List (String × TypeAcc)) (ty bank : String) (amt : ℚ)
    (k : String) :
    accBanks (accAdd acc ty bank amt) k =
      if k = ty then accBanks acc k ++ [bank] else accBanks acc k := by
  by_cases hk : k = ty
  · subst hk
    unfold accBanks
    rw [jsGet_accAdd_same]
    cases jsGet acc k <;> simp
  · unfold accBanks
    rw [jsGet_accAdd_other acc ty bank amt k hk, if_neg hk]

theorem accAllocs_accAdd (acc : List (String × TypeAcc)) (ty bank : String) (amt : ℚ)
    (k b : String) :
    accAllocs (accAdd acc ty bank amt) k b =
      if k = ty ∧ b = bank then some ((accAllocs acc k b).getD 0 + amt)
      else accAllocs acc k b := by
  by_cases hk : k = ty
  · subst hk
    unfold accAllocs
    rw [jsGet_accAdd_same]
    cases hget : jsGet acc k with
    | none =>
      simp only
      by_cases hb : b = bank
      · subst hb
        simp [jsGet]
      · have hne : ¬ bank = b := fun e => hb e.symm
        simp [jsGet, hb, hne]
    | some a =>
      simp only
      rw [jsGet_allocBump]
      by_cases hb : b = bank
      · simp [hb]
      · simp [hb]
  · unfold accAllocs
    rw [jsGet_accAdd_other acc ty bank amt k hk]
    simp [hk]

theorem isSome_jsGet_accAdd (acc : List (String × TypeAcc)) (ty bank : String) (amt : ℚ)
    (k : String) :
    (jsGet (accAdd acc ty bank amt) k).isSome =
      ((jsGet acc k).isSome || (k == ty)) := by
  by_cases hk : k = ty
  · subst hk
    rw [jsGet_accAdd_same]
    simp
  · rw [jsGet_accAdd_other acc ty bank amt k hk]
    simp [hk]

theorem jsGet_eq_none_iff {β : Type} (l : List (String × β)) (k : String) :
    jsGet l k = none ↔ k ∉ l.map Prod.fst := by
  induction l with
  | nil => simp [jsGet]
  | cons p l ih =>
    by_cases hk : p.1 = k
    · simp [jsGet, hk]
    · have hnk : ¬ k = p.1 := fun e => hk e.symm
      simp [jsGet, hk, ih, hnk]

theorem accAdd_keys_nodup (acc : List (String × TypeAcc)) (ty bank : String) (amt : ℚ)
    (h : (acc.map Prod.fst).Nodup) :
    ((accAdd acc ty bank amt).map Prod.fst).Nodup := by
  unfold accAdd
  cases hget : jsGet acc ty with
  | none =>
    have hnm : ty ∉ acc.map Prod.fst := (jsGet_eq_none_iff acc ty).mp hget
    simp [List.map_append, List.nodup_append, h, hnm]
  | some a =>
    have hkeys : ((acc.map (fun p => if p.1 = ty then (p.1, ⟨p.2.amount + amt,
        p.2.banks ++ [bank], allocBump p.2.bankAllocations bank amt⟩) else p)).map Prod.fst)
        = acc.map Prod.fst := by
      rw [List.map_map]
      apply List.map_congr_left
      intro p _hp
      by_cases hp1 : p.1 = ty <;> simp [hp1]
    rw [hkeys]
    exact h

/-! ## Bank-set and sorting lemmas -/

theorem jsSetDedup_mem_aux (l acc : List String) (b : String) :
    b ∈ l.foldl (fun acc b => if b ∈ acc then acc else acc ++ [b]) acc ↔ b ∈ acc ∨ b ∈ l := by
  induction l generalizing acc with
  | nil => simp
  | cons x l ih =>
    rw [List.foldl_cons]
    by_cases hx : x ∈ acc
    · rw [if_pos hx, ih]
      constructor
      · rintro (h | h)
        · exact Or.inl h
        · exact Or.inr (List.mem_cons_of_mem _ h)
      · rintro (h | h)
        · exact Or.inl h
        · rcases List.mem_cons.mp h with h | h
          · exact Or.inl (h ▸ hx)
          · exact Or.inr h
    · rw [if_neg hx, ih]
      simp [List.mem_append, or_assoc]

theorem jsSetDedup_mem (l : List String) (b : String) : b ∈ jsSetDedup l ↔ b ∈ l := by
  unfold jsSetDedup
  rw [jsSetDedup_mem_aux]
  simp

theorem jsSetDedup_nodup_aux (l acc : List String) (h : acc.Nodup) :
    (l.foldl (fun acc b => if b ∈ acc then acc else acc ++ [b]) acc).Nodup := by
  induction l generalizing acc with
  | nil => exact h
  | cons x l ih =>
    rw [List.foldl_cons]
    by_cases hx : x ∈ acc
    · rw [if_pos hx]
      exact ih acc h
    · rw [if_neg hx]
      apply ih
      simp [List.nodup_append, h, hx]

theorem jsSetDedup_nodup (l : List String) : (jsSetDedup l).Nodup :=
  jsSetDedup_nodup_aux l [] List.nodup_nil

theorem insertStable_perm (x : String) (l : List String) :
    List.Perm (insertStable x l) (x :: l) := by
  induction l with
  | nil => exact List.Perm.refl _
  | cons y ys ih =>
    unfold insertStable
    by_cases h : x < y
    · rw [if_pos h]
    · rw [if_neg h]
      exact (ih.cons y).trans (List.Perm.swap x y ys)

theorem stableSort_perm_aux (l acc : List String) :
    List.Perm (l.foldl (fun acc x => insertStable x acc) acc) (acc ++ l) := by
  induction l generalizing acc with
  | nil => simp
  | cons x l ih =>
    rw [List.foldl_cons]
    refine ((ih _).trans ?_)
    refine ((insertStable_perm x acc).append_right l).trans ?_
    exact List.perm_middle.symm

theorem stableSort_perm (l : List String) : List.Perm (stableSort l) l := by
  have := stableSort_perm_aux l []
  simpa [stableSort] using this

theorem sortedBanks_perm (m : Mission) : List.Perm (sortedBanks m) (allBanksList m) :=
  stableSort_perm _

theorem sortedBanks_mem (m : Mission) (b : String) :
    b ∈ sortedBanks m ↔ b ∈ allBanksList m :=
  (sortedBanks_perm m).mem_iff

theorem sortedBanks_nodup (m : Mission) : (sortedBanks m).Nodup :=
  ((sortedBanks_perm m).nodup_iff).mpr (jsSetDedup_nodup _)

theorem sortedBanks_length (m : Mission) :
    (sortedBanks m).length = (allBanksList m).length :=
  (sortedBanks_perm m).length_eq

/-! ## Nonnegativity and vanishing of slot amounts -/

/-- The expense-level side conditions of the round-trip claim: no explicit
allocations, nonnegative amounts, already-trimmed nonempty bank names. -/
def ExpensesOk (exps : List ExpenseItem) : Prop :=
  ∀ e ∈ exps, e.bankAllocations = [] ∧ 0 ≤ e.amount ∧
    ∀ b0 ∈ e.banks, jsTrim b0 = b0 ∧ b0 ≠ ""

theorem expenseDistributedAmount_no_alloc (e : ExpenseItem) (b : String)
    (h : e.bankAllocations = []) :
    expenseDistributedAmount e b = e.amount / (expenseDistFactor e : ℚ) := by
  simp [expenseDistributedAmount, h, jsGet]

theorem slotTypeAmount_nonneg (fallback : String) (exps : List ExpenseItem)
    (b : String) (t : CanonType)
    (h : ∀ e ∈ exps, e.bankAllocations = [] ∧ 0 ≤ e.amount) :
    0 ≤ slotTypeAmount fallback exps b t := by
  unfold slotTypeAmount
  apply List.sum_nonneg
  intro x hx
  obtain ⟨e, he, rfl⟩ := List.mem_map.mp hx
  obtain ⟨halloc, hamt⟩ := h e he
  split_ifs
  · rw [expenseDistributedAmount_no_alloc e b halloc]
    exact div_nonneg hamt (by positivity)
  · exact le_refl 0

theorem mem_allBanksList_of_mem_banks (m : Mission) (hok : ExpensesOk m.expenses)
    (e : ExpenseItem) (he : e ∈ m.expenses) (b : String) (hb : b ∈ e.banks) :
    b ∈ allBanksList m := by
  have hne : m.expenses ≠ [] := List.ne_nil_of_mem he
  obtain ⟨_, _, hbanks⟩ := hok e he
  obtain ⟨htrim, hbne⟩ := hbanks b hb
  unfold allBanksList
  rw [jsSetDedup_mem, if_neg hne]
  rw [List.mem_flatMap]
  refine ⟨e, he, ?_⟩
  rw [if_pos (List.ne_nil_of_mem hb)]
  rw [List.mem_filter]
  constructor
  · rw [List.mem_map]
    exact ⟨b, hb, htrim⟩
  · simp [hbne]

theorem fallback_mem_allBanksList (m : Mission) (e : ExpenseItem) (he : e ∈ m.expenses)
    (hbe : e.banks = []) : missionFallbackBank m.bank ∈ allBanksList m := by
  have hne : m.expenses ≠ [] := List.ne_nil_of_mem he
  unfold allBanksList
  rw [jsSetDedup_mem, if_neg hne, List.mem_flatMap]
  exact ⟨e, he, by rw [if_neg (by simp [hbe])]; exact List.mem_singleton.mpr rfl⟩

theorem slotTypeAmount_eq_zero_of_not_mem (m : Mission) (hok : ExpensesOk m.expenses)
    (b : String) (hb : b ∉ allBanksList m) (t : CanonType) :
    slotTypeAmount (missionFallbackBank m.bank) m.expenses b t = 0 := by
  unfold slotTypeAmount
  apply List.sum_eq_zero
  intro x hx
  obtain ⟨e, he, rfl⟩ := List.mem_map.mp hx
  have hinc : expenseShouldInclude (missionFallbackBank m.bank) e b = false := by
    unfold expenseShouldInclude
    by_cases hbe : e.banks = []
    · rw [if_neg (by simp [hbe])]
      rw [beq_eq_false_iff_ne]
      intro hbf
      exact hb (hbf ▸ fallback_mem_allBanksList m e he hbe)
    · rw [if_pos hbe]
      have hmem : b ∉ e.banks :=
        fun hmem => hb (mem_allBanksList_of_mem_banks m hok e he b hmem)
      simpa using hmem
  rw [if_neg]
  intro hcond
  rw [hinc] at hcond
  exact absurd hcond.1 (by simp)

/-! ## Sanitization and export-row field lemmas -/

theorem sanitizeForExcel_of_not_formula (s : String) (h : startsFormulaChar s = false) :
    sanitizeForExcel s = s := by
  unfold sanitizeForExcel
  rw [h]
  rfl

theorem sanitizeForExcel_ne_empty (s : String) (h : s ≠ "") :
    sanitizeForExcel s ≠ "" := by
  unfold sanitizeForExcel
  split_ifs
  · intro he
    have := congrArg String.data he
    simp at this
  · exact h

/-- The side conditions on a bank name needed for it to round-trip through
a slot column. -/
def GoodBank (b : String) : Prop :=
  jsTrim b = b ∧ b ≠ "" ∧ startsFormulaChar b = false ∧ b ≠ noBankPlaceholder

theorem exportRow_slotBank_some (m : Mission) (j : Fin 4) (b : String)
    (hj : (sortedBanks m)[j.val]? = some b) :
    (exportRowOf m).slotBank j = some (.str (sanitizeForExcel b)) := by
  show (match (sortedBanks m)[j.val]? with
    | some b => some (Cell.str (sanitizeForExcel b))
    | none => some (Cell.str noBankPlaceholder)) = _
  rw [hj]

theorem exportRow_slotBank_none (m : Mission) (j : Fin 4)
    (hj : (sortedBanks m)[j.val]? = none) :
    (exportRowOf m).slotBank j = some (.str noBankPlaceholder) := by
  show (match (sortedBanks m)[j.val]? with
    | some b => some (Cell.str (sanitizeForExcel b))
    | none => some (Cell.str noBankPlaceholder)) = _
  rw [hj]

theorem exportRow_bankName_some (m : Mission) (j : Fin 4) (b : String)
    (hj : (sortedBanks m)[j.val]? = some b) (hgood : GoodBank b) :
    jsTrim (jsStrOf ((exportRowOf m).slotBank j)) = b := by
  rw [exportRow_slotBank_some m j b hj, sanitizeForExcel_of_not_formula b hgood.2.2.1]
  simp [jsStrOf, jsOr, otruthy, Cell.truthy, hgood.2.1, cellToStr, hgood.1]

theorem exportRow_bankName_none (m : Mission) (j : Fin 4)
    (hj : (sortedBanks m)[j.val]? = none) :
    jsTrim (jsStrOf ((exportRowOf m).slotBank j)) = noBankPlaceholder := by
  rw [exportRow_slotBank_none m j hj]
  have h1 : jsStrOf (some (Cell.str noBankPlaceholder)) = noBankPlaceholder := by
    with_unfolding_all decide
  rw [h1]
  with_unfolding_all decide

theorem exportRow_slotAmt_parse (m : Mission) (j : Fin 4) (b : String)
    (hj : (sortedBanks m)[j.val]? = some b) (l : TypeLabel) :
    parseNumberCell ((exportRowOf m).slotAmt j l) =
      (match l with
        | .ikramiyatHamza => 0
        | _ => slotTypeAmount (missionFallbackBank m.bank) m.expenses b (labelCanonType l)) := by
  have hproj : (exportRowOf m).slotAmt j l =
      (match l with
        | .ikramiyatHamza => none
        | _ =>
          match (sortedBanks m)[j.val]? with
          | some b => some (.num (slotTypeAmount (missionFallbackBank m.bank) m.expenses b
              (labelCanonType l)))
          | none => some (.num 0)) := rfl
  cases l
  all_goals simp only [hproj]
  case ikramiyatHamza => rfl
  all_goals rw [hj]
  all_goals rfl

/-! ## Header-field round-trip lemmas -/

theorem ratTrunc_intCast (z : Int) : ratTrunc (z : ℚ) = z := by
  unfold ratTrunc
  split_ifs <;> simp

theorem exportRow_employeeName (m : Mission)
    (h1 : jsTrim m.employeeName = m.employeeName)
    (h2 : startsFormulaChar m.employeeName = false) :
    rowEmployeeName (exportRowOf m) = m.employeeName := by
  unfold rowEmployeeName
  have hname : (exportRowOf m).hName = some (.str (sanitizeForExcel m.employeeName)) := rfl
  have halt : (exportRowOf m).hNameAlt = none := rfl
  rw [hname, halt, sanitizeForExcel_of_not_formula _ h2]
  by_cases he : m.employeeName = ""
  · rw [he]
    with_unfolding_all decide
  · simp [jsOr, otruthy, Cell.truthy, he, jsStrOf, cellToStr, h1]

theorem exportRow_employeeCode (m : Mission) :
    rowEmployeeCode (exportRowOf m) = m.employeeCode := by
  unfold rowEmployeeCode
  have hcode : (exportRowOf m).hCode = some (.num (m.employeeCode : ℚ)) := rfl
  have halt : (exportRowOf m).hCodeAlt = none := rfl
  rw [hcode, halt]
  show (jsParseIntCell (jsOr none (some (Cell.num (m.employeeCode : ℚ))))).getD 0 = _
  rw [jsOr_none_left]
  show (some (ratTrunc ((m.employeeCode : ℚ)))).getD 0 = _
  rw [ratTrunc_intCast]
  rfl

theorem exportRow_employeeBranch (m : Mission)
    (h1 : jsTrim m.employeeBranch = m.employeeBranch)
    (h2 : startsFormulaChar m.employeeBranch = false) :
    rowEmployeeBranch (exportRowOf m) = m.employeeBranch := by
  unfold rowEmployeeBranch
  have hbr : (exportRowOf m).hBranch = some (.str (sanitizeForExcel m.employeeBranch)) := rfl
  have halt : (exportRowOf m).hBranchAlt = none := rfl
  rw [hbr, halt, sanitizeForExcel_of_not_formula _ h2, jsOr_none_left]
  by_cases he : m.employeeBranch = ""
  · rw [he]
    with_unfolding_all decide
  · simp [jsOr, otruthy, Cell.truthy, he, jsStrOf, cellToStr, h1]

theorem exportRow_missionDate (m : Mission) (today : String)
    (hdate : tryParseDateCell (some (Cell.str m.missionDate)) = some m.missionDate) :
    rowMissionDate today (exportRowOf m) = m.missionDate := by
  unfold rowMissionDate
  have hd : (exportRowOf m).hDate = some (.str m.missionDate) := rfl
  have halt : (exportRowOf m).hDateAlt = none := rfl
  rw [hd, halt, jsOr_none_left, hdate]
  rfl

theorem exportRow_isDetailed (m : Mission)
    (hbanks : ∀ b ∈ allBanksList m, GoodBank b) :
    isDetailedRow (exportRowOf m) = true := by
  unfold isDetailedRow
  apply Bool.or_eq_true_iff.mpr
  left
  rw [List.any_eq_true]
  refine ⟨(0 : Fin 4), List.mem_finRange _, ?_⟩
  cases hj : (sortedBanks m)[(0 : Fin 4).val]? with
  | some b =>
    rw [exportRow_slotBank_some m 0 b hj]
    have hb : GoodBank b := hbanks b ((sortedBanks_mem m b).mp (by
      have := List.getElem?_mem hj
      exact this))
    simp [otruthy, Cell.truthy, sanitizeForExcel_ne_empty b hb.2.1]
  | none =>
    rw [exportRow_slotBank_none m 0 hj]
    with_unfolding_all decide

/-! ## The detailed-scan invariant -/

theorem canonKey_inj (t t' : CanonType) : t.key = t'.key ↔ t = t' := by
  cases t <;> cases t' <;> simp [CanonType.key]

/-- State of the per-type accumulator after scanning the slots holding the
banks `bs`, measured against the per-bank per-type table `A`. -/
def ScanInv (A : String → CanonType → ℚ) (bs : List String)
    (acc : List (String × TypeAcc)) : Prop :=
  (∀ t : CanonType, accAmount acc t.key = (bs.map (fun b => A b t)).sum) ∧
  (∀ (t : CanonType) (b : String), b ∈ accBanks acc t.key ↔ b ∈ bs ∧ A b t > 0) ∧
  (∀ (t : CanonType) (b : String),
    accAllocs acc t.key b = if b ∈ bs ∧ A b t > 0 then some (A b t) else none) ∧
  ((acc.map Prod.fst).Nodup) ∧
  (∀ ty : String, (∀ t : CanonType, ty ≠ t.key) → jsGet acc ty = none) ∧
  (∀ t : CanonType, (jsGet acc t.key).isSome = true ↔ ∃ b ∈ bs, 0 < A b t)

theorem scanInv_nil (A : String → CanonType → ℚ) : ScanInv A [] [] := by
  refine ⟨?_, ?_, ?_, ?_, ?_, ?_⟩ <;>
    simp [accAmount, accBanks, accAllocs, jsGet]

/-- Processing the six labelled cells of one slot (bank `b`, with cell
values `A b ·`) extends the invariant by `b`. -/
theorem labelFold_scanInv (r : Row) (j : Fin 4) (b : String)
    (A : String → CanonType → ℚ)
    (hvals : ∀ l : TypeLabel, parseNumberCell (r.slotAmt j l) =
      (match l with
        | .ikramiyatHamza => 0
        | _ => A b (labelCanonType l)))
    (hA : ∀ t, 0 ≤ A b t)
    (bs : List String) (acc : List (String × TypeAcc))
    (hinv : ScanInv A bs acc) (hb : b ∉ bs) :
    ScanInv A (bs ++ [b]) (typeLabels.foldl (labelStep r j b) acc) := by
  classical
  set f : CanonType → List (String × TypeAcc) → List (String × TypeAcc) :=
    fun t acc2 => if A b t > 0 then accAdd acc2 t.key b (A b t) else acc2 with hf
  have hkey : ∀ (acc2 : List (String × TypeAcc)) (l : TypeLabel),
      labelStep r j b acc2 l =
        (match l with
          | .ikramiyatHamza => acc2
          | _ => f (labelCanonType l) acc2) := by
    intro acc2 l
    cases l <;> simp [labelStep, hvals, labelCanon, hf]
  have hfold : typeLabels.foldl (labelStep r j b) acc =
      f .hospitality (f .officeSupplies (f .tips (f .fees (f .transportation acc)))) := by
    simp only [typeLabels, List.foldl_cons, List.foldl_nil, hkey]
    rfl
  rw [hfold]
  obtain ⟨hAm, hBk, hAl, hNd, hNc, hSm⟩ := hinv
  have hstepAm : ∀ (t t' : CanonType) (acc2 : List (String × TypeAcc)),
      accAmount (f t' acc2) t.key =
        accAmount acc2 t.key + (if t = t' ∧ 0 < A b t' then A b t' else 0) := by
    intro t t' acc2
    show accAmount (if A b t' > 0 then accAdd acc2 t'.key b (A b t') else acc2) t.key = _
    by_cases h1 : A b t' > 0
    · rw [if_pos h1, accAmount_accAdd]
      by_cases h2 : t = t'
      · rw [if_pos ((canonKey_inj t t').mpr h2), if_pos ⟨h2, h1⟩]
      · rw [if_neg (fun hkk => h2 ((canonKey_inj t t').mp hkk)),
          if_neg (fun hc => h2 hc.1), add_zero]
    · rw [if_neg h1, if_neg (fun hc => h1 hc.2), add_zero]
  have hstepBk : ∀ (t t' : CanonType) (acc2 : List (String × TypeAcc)),
      accBanks (f t' acc2) t.key =
        accBanks acc2 t.key ++ (if t = t' ∧ 0 < A b t' then [b] else []) := by
    intro t t' acc2
    show accBanks (if A b t' > 0 then accAdd acc2 t'.key b (A b t') else acc2) t.key = _
    by_cases h1 : A b t' > 0
    · rw [if_pos h1, accBanks_accAdd]
      by_cases h2 : t = t'
      · rw [if_pos ((canonKey_inj t t').mpr h2), if_pos ⟨h2, h1⟩]
      · rw [if_neg (fun hkk => h2 ((canonKey_inj t t').mp hkk)),
          if_neg (fun hc => h2 hc.1), List.append_nil]
    · rw [if_neg h1, if_neg (fun hc => h1 hc.2), List.append_nil]
  have hstepAl : ∀ (t t' : CanonType) (b'' : String) (acc2 : List (String × TypeAcc)),
      accAllocs (f t' acc2) t.key b'' =
        if t = t' ∧ 0 < A b t' ∧ b'' = b then
          some ((accAllocs acc2 t.key b'').getD 0 + A b t')
        else accAllocs acc2 t.key b'' := by
    intro t t' b'' acc2
    show accAllocs (if A b t' > 0 then accAdd acc2 t'.key b (A b t') else acc2) t.key b'' = _
    by_cases h1 : A b t' > 0
    · rw [if_pos h1, accAllocs_accAdd]
      by_cases h2 : t = t'
      · by_cases h3 : b'' = b
        · rw [if_pos ⟨(canonKey_inj t t').mpr h2, h3⟩, if_pos ⟨h2, h1, h3⟩]
        · rw [if_neg (fun hc => h3 hc.2), if_neg (fun hc => h3 hc.2.2)]
      · rw [if_neg (fun hc => h2 ((canonKey_inj t t').mp hc.1)),
          if_neg (fun hc => h2 hc.1)]
    · rw [if_neg h1, if_neg (fun hc => h1 hc.2.1)]
  have hstepSm : ∀ (t t' : CanonType) (acc2 : List (String × TypeAcc)),
      (jsGet (f t' acc2) t.key).isSome =
        ((jsGet acc2 t.key).isSome || decide (t = t' ∧ 0 < A b t')) := by
    intro t t' acc2
    show (jsGet (if A b t' > 0 then accAdd acc2 t'.key b (A b t') else acc2) t.key).isSome = _
    by_cases h1 : A b t' > 0
    · rw [if_pos h1, isSome_jsGet_accAdd]
      by_cases h2 : t = t'
      · simp [h2, h1]
      · have hne : (t.key == t'.key) = false := by
          rw [beq_eq_false_iff_ne]
          exact fun hkk => h2 ((canonKey_inj t t').mp hkk)
        simp [hne, h2]
    · rw [if_neg h1]
      simp [h1]
  have hstepNc : ∀ (ty : String) (t' : CanonType) (acc2 : List (String × TypeAcc)),
      (∀ t : CanonType, ty ≠ t.key) → jsGet (f t' acc2) ty = jsGet acc2 ty := by
    intro ty t' acc2 hty
    show jsGet (if A b t' > 0 then accAdd acc2 t'.key b (A b t') else acc2) ty = _
    by_cases h1 : A b t' > 0
    · rw [if_pos h1, jsGet_accAdd_other _ _ _ _ _ (hty t')]
    · rw [if_neg h1]
  have hstepNd : ∀ (t' : CanonType) (acc2 : List (String × TypeAcc)),
      ((acc2.map Prod.fst).Nodup) → (((f t' acc2).map Prod.fst).Nodup) := by
    intro t' acc2 h
    show ((if A b t' > 0 then accAdd acc2 t'.key b (A b t') else acc2).map Prod.fst).Nodup
    by_cases h1 : A b t' > 0
    · rw [if_pos h1]
      exact accAdd_keys_nodup _ _ _ _ h
    · rw [if_neg h1]
      exact h
  have hpos : ∀ t : CanonType, (if 0 < A b t then A b t else 0) = A b t := by
    intro t
    rcases lt_or_eq_of_le (hA t) with h | h
    · rw [if_pos h]
    · rw [← h]
      simp
  refine ⟨?_, ?_, ?_, ?_, ?_, ?_⟩
  · intro t
    simp only [hstepAm, hAm, List.map_append, List.sum_append]
    cases t <;> simp [hpos]
  · intro t b''
    have hbk1 : ∀ t : CanonType,
        (b'' ∈ accBanks acc t.key ++ (if 0 < A b t then [b] else [])) ↔
          (b'' ∈ bs ++ [b] ∧ 0 < A b'' t) := by
      intro t
      rw [List.mem_append, hBk]
      by_cases hpos2 : 0 < A b t
      · rw [if_pos hpos2]
        constructor
        · rintro (⟨h1, h2⟩ | h1)
          · exact ⟨List.mem_append.mpr (Or.inl h1), h2⟩
          · have hbb : b'' = b := List.mem_singleton.mp h1
            subst hbb
            exact ⟨List.mem_append.mpr (Or.inr (List.mem_singleton.mpr rfl)), hpos2⟩
        · rintro ⟨h1, h2⟩
          rcases List.mem_append.mp h1 with h3 | h3
          · exact Or.inl ⟨h3, h2⟩
          · exact Or.inr h3
      · rw [if_neg hpos2]
        constructor
        · rintro (⟨h1, h2⟩ | h1)
          · exact ⟨List.mem_append.mpr (Or.inl h1), h2⟩
          · exact absurd h1 (List.not_mem_nil b'')
        · rintro ⟨h1, h2⟩
          rcases List.mem_append.mp h1 with h3 | h3
          · exact Or.inl ⟨h3, h2⟩
          · have hbb : b'' = b := List.mem_singleton.mp h3
            exact absurd (hbb ▸ h2) hpos2
    simp only [hstepBk]
    cases t <;> simpa using hbk1 _
  · intro t b''
    have hal1 : ∀ t : CanonType,
        (if 0 < A b t ∧ b'' = b then
          some ((accAllocs acc t.key b'').getD 0 + A b t)
        else accAllocs acc t.key b'') =
          if b'' ∈ bs ++ [b] ∧ 0 < A b'' t then some (A b'' t) else none := by
      intro t
      by_cases hc : 0 < A b t ∧ b'' = b
      · obtain ⟨hpos2, hbb⟩ := hc
        subst hbb
        rw [if_pos ⟨hpos2, rfl⟩, hAl]
        rw [if_neg (fun hx => hb hx.1)]
        rw [if_pos ⟨List.mem_append.mpr (Or.inr (List.mem_singleton.mpr rfl)), hpos2⟩]
        simp
      · rw [if_neg hc, hAl]
        by_cases h2 : b'' ∈ bs ∧ 0 < A b'' t
        · rw [if_pos h2, if_pos ⟨List.mem_append.mpr (Or.inl h2.1), h2.2⟩]
        · rw [if_neg h2, if_neg ?_]
          intro hx
          rcases List.mem_append.mp hx.1 with h3 | h3
          · exact h2 ⟨h3, hx.2⟩
          · have hbb : b'' = b := List.mem_singleton.mp h3
            exact hc ⟨hbb ▸ hx.2, hbb⟩
    simp only [hstepAl]
    cases t <;> simpa using hal1 _
  · exact hstepNd _ _ (hstepNd _ _ (hstepNd _ _ (hstepNd _ _ (hstepNd _ _ hNd))))
  · intro ty hty
    rw [hstepNc ty _ _ hty, hstepNc ty _ _ hty, hstepNc ty _ _ hty, hstepNc ty _ _ hty,
      hstepNc ty _ _ hty]
    exact hNc ty hty
  · intro t
    have hsm1 : ∀ t : CanonType,
        (((jsGet acc t.key).isSome || decide (0 < A b t)) = true ↔
          ∃ b' ∈ bs ++ [b], 0 < A b' t) := by
      intro t
      rw [Bool.or_eq_true, hSm]
      constructor
      · rintro (⟨b', hb', hpos2⟩ | h1)
        · exact ⟨b', List.mem_append.mpr (Or.inl hb'), hpos2⟩
        · exact ⟨b, List.mem_append.mpr (Or.inr (List.mem_singleton.mpr rfl)),
            of_decide_eq_true h1⟩
      · rintro ⟨b', hb', hpos2⟩
        rcases List.mem_append.mp hb' with h3 | h3
        · exact Or.inl ⟨b', h3, hpos2⟩
        · have hbb : b' = b := List.mem_singleton.mp h3
          exact Or.inr (decide_eq_true (hbb ▸ hpos2))
    simp only [hstepSm]
    cases t <;> simpa using hsm1 _

/-! ## Scanning the four slots of an export row -/

theorem processSlot_snd_good (m : Mission) (j : Fin 4) (b : String)
    (hj : (sortedBanks m)[j.val]? = some b) (hgood : GoodBank b)
    (st : List String × List (String × TypeAcc)) :
    (processSlot (exportRowOf m) j st).2 =
      typeLabels.foldl (labelStep (exportRowOf m) j b) st.2 := by
  unfold processSlot
  rw [exportRow_bankName_some m j b hj hgood]
  rw [if_neg (by simp [hgood.2.1, hgood.2.2.2])]

theorem processSlot_skip (m : Mission) (j : Fin 4)
    (hj : (sortedBanks m)[j.val]? = none)
    (st : List String × List (String × TypeAcc)) :
    processSlot (exportRowOf m) j st = st := by
  unfold processSlot
  rw [exportRow_bankName_none m j hj]
  rw [if_pos (Or.inr rfl)]

theorem finRange_four : List.finRange 4 = [0, 1, 2, 3] := by decide

/-- After scanning all four slots of the export row of a mission whose
distinct banks fit in the four slots, the accumulator satisfies the scan
invariant over the full sorted bank list. -/
theorem detailedScan_scanInv (m : Mission)
    (hgoods : ∀ b ∈ allBanksList m, GoodBank b)
    (hok : ∀ e ∈ m.expenses, e.bankAllocations = [] ∧ 0 ≤ e.amount)
    (hlen : (allBanksList m).length ≤ 4) :
    ScanInv (fun b t => slotTypeAmount (missionFallbackBank m.bank) m.expenses b t)
      (sortedBanks m) (detailedScan (exportRowOf m)).2 := by
  classical
  set A : String → CanonType → ℚ :=
    fun b t => slotTypeAmount (missionFallbackBank m.bank) m.expenses b t with hA
  have hlen' : (sortedBanks m).length ≤ 4 := by
    rw [sortedBanks_length]
    exact hlen
  have hnd := sortedBanks_nodup m
  have hmem : ∀ b ∈ sortedBanks m, GoodBank b := by
    intro b hbmem
    exact hgoods b ((sortedBanks_mem m b).mp hbmem)
  have hAnn : ∀ b, ∀ t, 0 ≤ A b t := by
    intro b t
    exact slotTypeAmount_nonneg _ _ _ _ hok
  have hvals : ∀ (j : Fin 4) (b : String), (sortedBanks m)[j.val]? = some b →
      ∀ l : TypeLabel, parseNumberCell ((exportRowOf m).slotAmt j l) =
        (match l with
          | .ikramiyatHamza => 0
          | _ => A b (labelCanonType l)) := by
    intro j b hj l
    exact exportRow_slotAmt_parse m j b hj l
  have hscan : detailedScan (exportRowOf m) =
      processSlot (exportRowOf m) 3 (processSlot (exportRowOf m) 2
        (processSlot (exportRowOf m) 1 (processSlot (exportRowOf m) 0 ([], [])))) := by
    unfold detailedScan
    rw [finRange_four]
    rfl
  rcases hsb : sortedBanks m with _ | ⟨b0, tl0⟩
  · -- no banks at all: all four slots are placeholders
    have hj0 : (sortedBanks m)[(0 : Fin 4).val]? = none := by rw [hsb]; rfl
    have hj1 : (sortedBanks m)[(1 : Fin 4).val]? = none := by rw [hsb]; rfl
    have hj2 : (sortedBanks m)[(2 : Fin 4).val]? = none := by rw [hsb]; rfl
    have hj3 : (sortedBanks m)[(3 : Fin 4).val]? = none := by rw [hsb]; rfl
    rw [hscan, processSlot_skip m 3 hj3, processSlot_skip m 2 hj2,
      processSlot_skip m 1 hj1, processSlot_skip m 0 hj0]
    exact scanInv_nil A
  · rcases tl0 with _ | ⟨b1, tl1⟩
    · -- one bank
      have hj0 : (sortedBanks m)[(0 : Fin 4).val]? = some b0 := by rw [hsb]; rfl
      have hj1 : (sortedBanks m)[(1 : Fin 4).val]? = none := by rw [hsb]; rfl
      have hj2 : (sortedBanks m)[(2 : Fin 4).val]? = none := by rw [hsb]; rfl
      have hj3 : (sortedBanks m)[(3 : Fin 4).val]? = none := by rw [hsb]; rfl
      have hg0 : GoodBank b0 := hmem b0 (by rw [hsb]; exact List.mem_cons_self _ _)
      rw [hscan, processSlot_skip m 3 hj3, processSlot_skip m 2 hj2,
        processSlot_skip m 1 hj1, processSlot_snd_good m 0 b0 hj0 hg0]
      have h1 := labelFold_scanInv (exportRowOf m) 0 b0 A (hvals 0 b0 hj0) (hAnn b0)
        [] [] (scanInv_nil A) (List.not_mem_nil b0)
      simpa using h1
    · rcases tl1 with _ | ⟨b2, tl2⟩
      · -- two banks
        have hj0 : (sortedBanks m)[(0 : Fin 4).val]? = some b0 := by rw [hsb]; rfl
        have hj1 : (sortedBanks m)[(1 : Fin 4).val]? = some b1 := by rw [hsb]; rfl
        have hj2 : (sortedBanks m)[(2 : Fin 4).val]? = none := by rw [hsb]; rfl
        have hj3 : (sortedBanks m)[(3 : Fin 4).val]? = none := by rw [hsb]; rfl
        have hg0 : GoodBank b0 := hmem b0 (by rw [hsb]; exact List.mem_cons_self _ _)
        have hg1 : GoodBank b1 := hmem b1 (by rw [hsb]; simp)
        rw [hsb] at hnd
        have h01 : b0 ≠ b1 := by
          intro he
          subst he
          simp at hnd
        rw [hscan, processSlot_skip m 3 hj3, processSlot_skip m 2 hj2,
          processSlot_snd_good m 1 b1 hj1 hg1, processSlot_snd_good m 0 b0 hj0 hg0]
        have h1 := labelFold_scanInv (exportRowOf m) 0 b0 A (hvals 0 b0 hj0) (hAnn b0)
          [] [] (scanInv_nil A) (List.not_mem_nil b0)
        have h2 := labelFold_scanInv (exportRowOf m) 1 b1 A (hvals 1 b1 hj1) (hAnn b1)
          ([] ++ [b0]) _ h1 (by
            simp only [List.nil_append, List.mem_singleton]
            exact fun he => h01 he.symm)
        simpa using h2
      · rcases tl2 with _ | ⟨b3, tl3⟩
        · -- three banks
          have hj0 : (sortedBanks m)[(0 : Fin 4).val]? = some b0 := by rw [hsb]; rfl
          have hj1 : (sortedBanks m)[(1 : Fin 4).val]? = some b1 := by rw [hsb]; rfl
          have hj2 : (sortedBanks m)[(2 : Fin 4).val]? = some b2 := by rw [hsb]; rfl
          have hj3 : (sortedBanks m)[(3 : Fin 4).val]? = none := by rw [hsb]; rfl
          have hg0 : GoodBank b0 := hmem b0 (by rw [hsb]; exact List.mem_cons_self _ _)
          have hg1 : GoodBank b1 := hmem b1 (by rw [hsb]; simp)
          have hg2 : GoodBank b2 := hmem b2 (by rw [hsb]; simp)
          rw [hsb] at hnd
          have h01 : b0 ≠ b1 := by
            intro he
            subst he
            simp at hnd
          have h02 : b0 ≠ b2 := by
            intro he
            subst he
            simp at hnd
          have h12 : b1 ≠ b2 := by
            intro he
            subst he
            simp at hnd
          rw [hscan, processSlot_skip m 3 hj3,
            processSlot_snd_good m 2 b2 hj2 hg2, processSlot_snd_good m 1 b1 hj1 hg1,
            processSlot_snd_good m 0 b0 hj0 hg0]
          have h1 := labelFold_scanInv (exportRowOf m) 0 b0 A (hvals 0 b0 hj0) (hAnn b0)
            [] [] (scanInv_nil A) (List.not_mem_nil b0)
          have h2 := labelFold_scanInv (exportRowOf m) 1 b1 A (hvals 1 b1 hj1) (hAnn b1)
            ([] ++ [b0]) _ h1 (by
              simp only [List.nil_append, List.mem_singleton]
              exact fun he => h01 he.symm)
          have h3 := labelFold_scanInv (exportRowOf m) 2 b2 A (hvals 2 b2 hj2) (hAnn b2)
            (([] ++ [b0]) ++ [b1]) _ h2 (by
              simp only [List.nil_append, List.mem_append, List.mem_singleton]
              rintro (he | he)
              · exact h02 he.symm
              · exact h12 he.symm)
          simpa using h3
        · -- four banks (tl3 must be empty by the length bound)
          have htl3 : tl3 = [] := by
            have hlen4 := hlen'
            rw [hsb] at hlen4
            simp only [List.length_cons] at hlen4
            have hz : tl3.length = 0 := by omega
            exact List.length_eq_zero.mp hz
          subst htl3
          have hj0 : (sortedBanks m)[(0 : Fin 4).val]? = some b0 := by rw [hsb]; rfl
          have hj1 : (sortedBanks m)[(1 : Fin 4).val]? = some b1 := by rw [hsb]; rfl
          have hj2 : (sortedBanks m)[(2 : Fin 4).val]? = some b2 := by rw [hsb]; rfl
          have hj3 : (sortedBanks m)[(3 : Fin 4).val]? = some b3 := by rw [hsb]; rfl
          have hg0 : GoodBank b0 := hmem b0 (by rw [hsb]; exact List.mem_cons_self _ _)
          have hg1 : GoodBank b1 := hmem b1 (by rw [hsb]; simp)
          have hg2 : GoodBank b2 := hmem b2 (by rw [hsb]; simp)
          have hg3 : GoodBank b3 := hmem b3 (by rw [hsb]; simp)
          rw [hsb] at hnd
          have h01 : b0 ≠ b1 := by
            intro he
            subst he
            simp at hnd
          have h02 : b0 ≠ b2 := by
            intro he
            subst he
            simp at hnd
          have h03 : b0 ≠ b3 := by
            intro he
            subst he
            simp at hnd
          have h12 : b1 ≠ b2 := by
            intro he
            subst he
            simp at hnd
          have h13 : b1 ≠ b3 := by
            intro he
            subst he
            simp at hnd
          have h23 : b2 ≠ b3 := by
            intro he
            subst he
            simp at hnd
          rw [hscan, processSlot_snd_good m 3 b3 hj3 hg3,
            processSlot_snd_good m 2 b2 hj2 hg2, processSlot_snd_good m 1 b1 hj1 hg1,
            processSlot_snd_good m 0 b0 hj0 hg0]
          have h1 := labelFold_scanInv (exportRowOf m) 0 b0 A (hvals 0 b0 hj0) (hAnn b0)
            [] [] (scanInv_nil A) (List.not_mem_nil b0)
          have h2 := labelFold_scanInv (exportRowOf m) 1 b1 A (hvals 1 b1 hj1) (hAnn b1)
            ([] ++ [b0]) _ h1 (by
              simp only [List.nil_append, List.mem_singleton]
              exact fun he => h01 he.symm)
          have h3 := labelFold_scanInv (exportRowOf m) 2 b2 A (hvals 2 b2 hj2) (hAnn b2)
            (([] ++ [b0]) ++ [b1]) _ h2 (by
              simp only [List.nil_append, List.mem_append, List.mem_singleton]
              rintro (he | he)
              · exact h02 he.symm
              · exact h12 he.symm)
          have h4 := labelFold_scanInv (exportRowOf m) 3 b3 A (hvals 3 b3 hj3) (hAnn b3)
            ((([] ++ [b0]) ++ [b1]) ++ [b2]) _ h3 (by
              simp only [List.nil_append, List.mem_append, List.mem_singleton]
              rintro ((he | he) | he)
              · exact h03 he.symm
              · exact h13 he.symm
              · exact h23 he.symm)
          simpa using h4

/-! ## From the accumulator to the reconstructed mission -/

theorem jsGet_of_mem_nodup {β : Type} (l : List (String × β)) (p : String × β)
    (hmem : p ∈ l) (hnd : (l.map Prod.fst).Nodup) : jsGet l p.1 = some p.2 := by
  induction l with
  | nil => simp at hmem
  | cons q l ih =>
    rcases List.mem_cons.mp hmem with h | h
    · subst h
      rw [jsGet, if_pos rfl]
    · have hq : q.1 ≠ p.1 := by
        rw [List.map_cons, List.nodup_cons] at hnd
        intro he
        exact hnd.1 (he ▸ List.mem_map.mpr ⟨p, h, rfl⟩)
      rw [jsGet, if_neg hq]
      exact ih h (by
        rw [List.map_cons, List.nodup_cons] at hnd
        exact hnd.2)

theorem normalizeExpenseType_canon (t : CanonType) :
    normalizeExpenseType t.key = t.key := by
  cases t <;> rfl

/-- The `ExpenseItem` built from one accumulator entry (the generated id is
irrelevant to every amount computation). -/
def entryExpense (p : String × TypeAcc) : ExpenseItem :=
  { id := "", type := p.1, amount := p.2.amount
  , banks := jsSetDedup p.2.banks, bankAllocations := p.2.bankAllocations }

theorem mkExpenses_mem_id (i k : ℕ) (acc : List (String × TypeAcc)) (e : ExpenseItem)
    (he : e ∈ mkExpenses i k acc) : ∃ k', e.id = generateExpenseId i k' := by
  induction acc generalizing k with
  | nil => simp [mkExpenses] at he
  | cons p rest ih =>
    rw [mkExpenses] at he
    rcases List.mem_cons.mp he with h | h
    · exact ⟨k, by rw [h]⟩
    · exact ih (k + 1) h

theorem mkExpenses_amounts_sum (i k : ℕ) (acc : List (String × TypeAcc)) :
    ((mkExpenses i k acc).map (·.amount)).sum = (acc.map (fun p => p.2.amount)).sum := by
  induction acc generalizing k with
  | nil => rfl
  | cons p rest ih =>
    rw [mkExpenses, List.map_cons, List.sum_cons, List.map_cons, List.sum_cons, ih (k + 1)]

theorem slotTypeAmount_mkExpenses (fb : String) (i k : ℕ) (acc : List (String × TypeAcc))
    (b : String) (t : CanonType) :
    slotTypeAmount fb (mkExpenses i k acc) b t =
      (acc.map (fun p =>
        if expenseShouldInclude fb (entryExpense p) b ∧ normalizeExpenseType p.1 = t.key
        then expenseDistributedAmount (entryExpense p) b else 0)).sum := by
  induction acc generalizing k with
  | nil => rfl
  | cons p rest ih =>
    rw [mkExpenses]
    unfold slotTypeAmount at *
    rw [List.map_cons, List.sum_cons, List.map_cons, List.sum_cons, ih (k + 1)]
    rfl

theorem map_sum_single_key (acc : List (String × TypeAcc)) (key : String)
    (f : String × TypeAcc → ℚ)
    (hnd : (acc.map Prod.fst).Nodup) (hz : ∀ p ∈ acc, p.1 ≠ key → f p = 0) :
    (acc.map f).sum =
      (match jsGet acc key with
        | some a => f (key, a)
        | none => 0) := by
  induction acc with
  | nil => rfl
  | cons p rest ih =>
    rw [List.map_cons, List.sum_cons]
    rw [List.map_cons, List.nodup_cons] at hnd
    by_cases hk : p.1 = key
    · have hrest : (rest.map f).sum = 0 := by
        apply List.sum_eq_zero
        intro x hx
        obtain ⟨q, hq, rfl⟩ := List.mem_map.mp hx
        apply hz q (List.mem_cons_of_mem _ hq)
        intro he
        exact hnd.1 (hk ▸ he ▸ List.mem_map.mpr ⟨q, hq, rfl⟩)
      rw [hrest, add_zero, jsGet, if_pos hk]
      have hkp : (key, p.2) = p := by
        cases p
        simp at hk
        simp [hk]
      show f p = f (key, p.2)
      rw [hkp]
    · rw [jsGet, if_neg hk, hz p (List.mem_cons_self _ _) hk, zero_add]
      exact ih hnd.2 (fun q hq => hz q (List.mem_cons_of_mem _ hq))

theorem accAmount_cons (p : String × TypeAcc) (rest : List (String × TypeAcc)) (k : String) :
    accAmount (p :: rest) k = if p.1 = k then p.2.amount else accAmount rest k := by
  unfold accAmount
  rw [jsGet]
  split_ifs <;> rfl

theorem sum_entries_eq_sum_canon (acc : List (String × TypeAcc))
    (hnd : (acc.map Prod.fst).Nodup)
    (hkeys : ∀ p ∈ acc, ∃ tc : CanonType, p.1 = tc.key) :
    (acc.map (fun p => p.2.amount)).sum =
      (canonTypes.map (fun t => accAmount acc t.key)).sum := by
  induction acc with
  | nil => simp [accAmount, jsGet, canonTypes]
  | cons p rest ih =>
    rw [List.map_cons, List.sum_cons]
    rw [List.map_cons, List.nodup_cons] at hnd
    obtain ⟨tc, htc⟩ := hkeys p (List.mem_cons_self _ _)
    have hrest0 : accAmount rest p.1 = 0 := by
      unfold accAmount
      rw [(jsGet_eq_none_iff rest p.1).mpr hnd.1]
    have ihr := ih hnd.2 (fun q hq => hkeys q (List.mem_cons_of_mem _ hq))
    rw [ihr]
    have hc : ∀ t : CanonType, accAmount (p :: rest) t.key =
        (if tc = t then p.2.amount else 0) + accAmount rest t.key := by
      intro t
      rw [accAmount_cons]
      by_cases ht : tc = t
      · rw [if_pos (htc.trans (ht ▸ rfl)), if_pos ht, ← ht, ← htc, hrest0, add_zero]
      · rw [if_neg (fun he => ht ((canonKey_inj tc t).mp (htc ▸ he))), if_neg ht, zero_add]
    simp only [canonTypes, List.map_cons, List.map_nil, List.sum_cons, List.sum_nil, hc]
    cases tc <;> simp <;> ring

theorem sum_map_add {α : Type} (l : List α) (f g : α → ℚ) :
    (l.map (fun b => f b + g b)).sum = (l.map f).sum + (l.map g).sum := by
  induction l with
  | nil => simp
  | cons x l ih =>
    simp [ih]
    ring

theorem canon_sum_swap (sb : List String) (A : String → CanonType → ℚ) :
    (canonTypes.map (fun t => (sb.map (fun b => A b t)).sum)).sum =
      (sb.map (fun b => (canonTypes.map (fun t => A b t)).sum)).sum := by
  induction sb with
  | nil => simp
  | cons b sb ih =>
    calc (canonTypes.map (fun t => ((b :: sb).map (fun b' => A b' t)).sum)).sum
        = (canonTypes.map (fun t => A b t + (sb.map (fun b' => A b' t)).sum)).sum := by
          apply congrArg List.sum
          apply List.map_congr_left
          intro t _ht
          rw [List.map_cons, List.sum_cons]
      _ = (canonTypes.map (fun t => A b t)).sum +
            (canonTypes.map (fun t => (sb.map (fun b' => A b' t)).sum)).sum :=
          sum_map_add canonTypes _ _
      _ = (canonTypes.map (fun t => A b t)).sum +
            (sb.map (fun b' => (canonTypes.map (fun t => A b' t)).sum)).sum := by rw [ih]
      _ = ((b :: sb).map (fun b' => (canonTypes.map (fun t => A b' t)).sum)).sum := by
          rw [List.map_cons, List.sum_cons]

theorem canonTypes_sum_slotTotal (fb : String) (exps : List ExpenseItem) (b : String) :
    (canonTypes.map (fun t => slotTypeAmount fb exps b t)).sum = slotTotalAmount fb exps b := by
  simp only [canonTypes, List.map_cons, List.map_nil, List.sum_cons, List.sum_nil,
    slotTotalAmount]
  ring

/-! ## The per-mission round trip -/

theorem expenseDistributedAmount_alloc (e : ExpenseItem) (bankName : String) (v : ℚ)
    (hv : jsGet e.bankAllocations bankName = some v) (hnz : v ≠ 0) :
    expenseDistributedAmount e bankName = v := by
  unfold expenseDistributedAmount
  rw [hv]
  exact if_pos hnz

theorem expenseDistributedAmount_alloc_check :
    expenseDistributedAmount
      { id := "x", type := "t", amount := 9, banks := ["A"], bankAllocations := [("A", 4)] }
      "A" = 4 :=
  expenseDistributedAmount_alloc _ "A" 4 (by with_unfolding_all decide) (by with_unfolding_all decide)

/-- Side conditions of the round-trip claim: at most four distinct banks,
well-behaved bank names, no explicit allocations, nonnegative amounts,
trimmed non-formula employee fields, and a date whose exported string
re-parses to itself. -/
def C1Hyp (m : Mission) : Prop :=
  (allBanksList m).length ≤ 4 ∧
  (∀ b ∈ allBanksList m, GoodBank b) ∧
  ExpensesOk m.expenses ∧
  jsTrim m.employeeName = m.employeeName ∧ startsFormulaChar m.employeeName = false ∧
  jsTrim m.employeeBranch = m.employeeBranch ∧ startsFormulaChar m.employeeBranch = false ∧
  tryParseDateCell (some (Cell.str m.missionDate)) = some m.missionDate

theorem roundtrip_mission (today : String) (i : ℕ) (m : Mission) (h : C1Hyp m) :
    ((parseMissionRow today i (exportRowOf m)).1.employeeName = m.employeeName) ∧
    ((parseMissionRow today i (exportRowOf m)).1.employeeCode = m.employeeCode) ∧
    ((parseMissionRow today i (exportRowOf m)).1.employeeBranch = m.employeeBranch) ∧
    ((parseMissionRow today i (exportRowOf m)).1.missionDate = m.missionDate) ∧
    (∀ (b : String) (t : CanonType),
      perBankTypeTotal (parseMissionRow today i (exportRowOf m)).1 b t =
        perBankTypeTotal m b t) ∧
    ((parseMissionRow today i (exportRowOf m)).1.totalAmount = missionGrandTotal m) ∧
    ((parseMissionRow today i (exportRowOf m)).1.id = generateMissionId i) ∧
    (∀ e ∈ (parseMissionRow today i (exportRowOf m)).1.expenses,
      ∃ k, e.id = generateExpenseId i k) := by
  classical
  obtain ⟨hlen, hgoods, hok, hn1, hn2, hbr1, hbr2, hdate⟩ := h
  have hok2 : ∀ e ∈ m.expenses, e.bankAllocations = [] ∧ 0 ≤ e.amount :=
    fun e he => ⟨(hok e he).1, (hok e he).2.1⟩
  have hdet := exportRow_isDetailed m hgoods
  have hinv := detailedScan_scanInv m hgoods hok2 hlen
  rcases hpair : detailedScan (exportRowOf m) with ⟨ub, acc⟩
  rw [hpair] at hinv
  obtain ⟨hAm, hBk, hAl, hNd, hNc, hSm⟩ := hinv
  have hname : (parseMissionRow today i (exportRowOf m)).1.employeeName =
      rowEmployeeName (exportRowOf m) := by
    simp [parseMissionRow, hdet, parseDetailedMission, hpair]
  have hcode : (parseMissionRow today i (exportRowOf m)).1.employeeCode =
      rowEmployeeCode (exportRowOf m) := by
    simp [parseMissionRow, hdet, parseDetailedMission, hpair]
  have hbranch : (parseMissionRow today i (exportRowOf m)).1.employeeBranch =
      rowEmployeeBranch (exportRowOf m) := by
    simp [parseMissionRow, hdet, parseDetailedMission, hpair]
  have hdat : (parseMissionRow today i (exportRowOf m)).1.missionDate =
      rowMissionDate today (exportRowOf m) := by
    simp [parseMissionRow, hdet, parseDetailedMission, hpair]
  have hexp : (parseMissionRow today i (exportRowOf m)).1.expenses = mkExpenses i 0 acc := by
    simp [parseMissionRow, hdet, parseDetailedMission, hpair]
  have htot : (parseMissionRow today i (exportRowOf m)).1.totalAmount =
      ((mkExpenses i 0 acc).map (·.amount)).sum := by
    simp [parseMissionRow, hdet, parseDetailedMission, hpair]
  have hid : (parseMissionRow today i (exportRowOf m)).1.id = generateMissionId i := by
    simp [parseMissionRow, hdet, parseDetailedMission, hpair]
  have hkeysCanon : ∀ p ∈ acc, ∃ tc : CanonType, p.1 = tc.key := by
    intro p hp
    by_contra hnex
    push_neg at hnex
    have hnone := hNc p.1 hnex
    have hsome := jsGet_of_mem_nodup acc p hp hNd
    rw [hnone] at hsome
    exact absurd hsome (by simp)
  refine ⟨?_, ?_, ?_, ?_, ?_, ?_, hid, ?_⟩
  · rw [hname]
    exact exportRow_employeeName m hn1 hn2
  · rw [hcode]
    exact exportRow_employeeCode m
  · rw [hbranch]
    exact exportRow_employeeBranch m hbr1 hbr2
  · rw [hdat]
    exact exportRow_missionDate m today hdate
  · -- per-bank per-type totals
    intro b t
    unfold perBankTypeTotal
    rw [hexp]
    rw [slotTypeAmount_mkExpenses
      (missionFallbackBank (parseMissionRow today i (exportRowOf m)).1.bank) i 0 acc b t]
    have hz : ∀ p ∈ acc, p.1 ≠ t.key →
        (if expenseShouldInclude
            (missionFallbackBank (parseMissionRow today i (exportRowOf m)).1.bank)
            (entryExpense p) b ∧ normalizeExpenseType p.1 = t.key
          then expenseDistributedAmount (entryExpense p) b else 0) = 0 := by
      intro p hp hne
      obtain ⟨tc, htc⟩ := hkeysCanon p hp
      rw [if_neg]
      rintro ⟨_, hcond⟩
      rw [htc, normalizeExpenseType_canon] at hcond
      exact hne (htc ▸ hcond)
    rw [map_sum_single_key acc t.key _ hNd hz]
    cases hget : jsGet acc t.key with
    | none =>
      show (0 : ℚ) = _
      have hnonneg := slotTypeAmount_nonneg (missionFallbackBank m.bank) m.expenses b t hok2
      by_cases hbmem : b ∈ sortedBanks m
      · have hnpos : ¬ 0 < slotTypeAmount (missionFallbackBank m.bank) m.expenses b t := by
          intro hpos
          have := (hSm t).mpr ⟨b, hbmem, hpos⟩
          rw [hget] at this
          simp at this
        exact (le_antisymm (not_lt.mp hnpos) hnonneg).symm
      · exact (slotTypeAmount_eq_zero_of_not_mem m hok b
          (fun hm2 => hbmem ((sortedBanks_mem m b).mpr hm2)) t).symm
    | some a =>
      have hbanksacc : accBanks acc t.key = a.banks := by
        unfold accBanks
        rw [hget]
      show (if expenseShouldInclude
          (missionFallbackBank (parseMissionRow today i (exportRowOf m)).1.bank)
          (entryExpense (t.key, a)) b ∧ normalizeExpenseType t.key = t.key
        then expenseDistributedAmount (entryExpense (t.key, a)) b else 0) = _
      obtain ⟨bw, hbw, hbwpos⟩ := (hSm t).mp (by rw [hget]; rfl)
      have hbw_mem : bw ∈ a.banks := by
        rw [← hbanksacc]
        exact (hBk t bw).mpr ⟨hbw, hbwpos⟩
      have hbne : jsSetDedup a.banks ≠ [] := by
        intro hnil
        have hmm := (jsSetDedup_mem a.banks bw).mpr hbw_mem
        rw [hnil] at hmm
        exact List.not_mem_nil bw hmm
      by_cases hmemb : b ∈ a.banks
      · have hbsb : b ∈ sortedBanks m ∧
            0 < slotTypeAmount (missionFallbackBank m.bank) m.expenses b t :=
          (hBk t b).mp (hbanksacc ▸ hmemb)
        have hja : jsGet a.bankAllocations b =
            some (slotTypeAmount (missionFallbackBank m.bank) m.expenses b t) := by
          have hallocs := hAl t b
          rw [if_pos hbsb] at hallocs
          unfold accAllocs at hallocs
          rw [hget] at hallocs
          exact hallocs
        have hinc : expenseShouldInclude
            (missionFallbackBank (parseMissionRow today i (exportRowOf m)).1.bank)
            (entryExpense (t.key, a)) b = true := by
          unfold expenseShouldInclude entryExpense
          rw [if_pos (by simpa using hbne)]
          simpa using (jsSetDedup_mem a.banks b).mpr hmemb
        rw [if_pos ⟨hinc, normalizeExpenseType_canon t⟩]
        exact expenseDistributedAmount_alloc (entryExpense (t.key, a)) b
          (slotTypeAmount (missionFallbackBank m.bank) m.expenses b t) hja (ne_of_gt hbsb.2)
      · have hninc : ¬ (expenseShouldInclude
            (missionFallbackBank (parseMissionRow today i (exportRowOf m)).1.bank)
            (entryExpense (t.key, a)) b = true ∧
            normalizeExpenseType t.key = t.key) := by
          rintro ⟨hinc, _⟩
          unfold expenseShouldInclude entryExpense at hinc
          rw [if_pos (by simpa using hbne)] at hinc
          have : b ∈ jsSetDedup a.banks := by simpa using hinc
          exact hmemb ((jsSetDedup_mem a.banks b).mp this)
        rw [if_neg hninc]
        have hnmem : ¬ (b ∈ sortedBanks m ∧
            0 < slotTypeAmount (missionFallbackBank m.bank) m.expenses b t) := by
          intro hc
          exact hmemb (hbanksacc ▸ (hBk t b).mpr hc)
        by_cases hbmem : b ∈ sortedBanks m
        · have hnpos : ¬ 0 < slotTypeAmount (missionFallbackBank m.bank) m.expenses b t :=
            fun hpos => hnmem ⟨hbmem, hpos⟩
          exact (le_antisymm (not_lt.mp hnpos)
            (slotTypeAmount_nonneg (missionFallbackBank m.bank) m.expenses b t hok2)).symm
        · exact (slotTypeAmount_eq_zero_of_not_mem m hok b
            (fun hm2 => hbmem ((sortedBanks_mem m b).mpr hm2)) t).symm
  · -- grand total
    rw [htot, mkExpenses_amounts_sum, sum_entries_eq_sum_canon acc hNd hkeysCanon]
    have hcongr : canonTypes.map (fun t => accAmount acc t.key) =
        canonTypes.map (fun t => ((sortedBanks m).map
          (fun b => slotTypeAmount (missionFallbackBank m.bank) m.expenses b t)).sum) := by
      apply List.map_congr_left
      intro t _ht
      exact hAm t
    rw [hcongr, canon_sum_swap]
    unfold missionGrandTotal
    apply congrArg List.sum
    apply List.map_congr_left
    intro b _hb
    exact canonTypes_sum_slotTotal _ _ _
  · rw [hexp]
    intro e he
    exact mkExpenses_mem_id i 0 acc e he

/-- With no expense-sheet rows the linking pass changes nothing. -/
theorem linkExpenses_nil (missions : List Mission) (idMap : List (String × String)) :
    linkExpenses missions idMap [] = missions := by
  unfold linkExpenses
  induction missions with
  | nil => rfl
  | cons m rest ih =>
    rw [List.map_cons, ih]
    congr 1
    cases hf : (idMap.map Prod.fst).find? (fun orig => jsGet idMap orig == some m.id) with
    | none => simp [hf]
    | some orig =>
      by_cases ho : orig = ""
      · simp [hf, ho]
      · simp [hf, ho, jsGet_nil]

/-- C1 — Round trip: for every mission collection in which each mission
touches at most four distinct banks (with well-formed bank names), no
expense carries explicit `bankAllocations` overrides (and amounts are
nonnegative, expense bank names trimmed and nonempty), the employee
fields are trimmed and not formula-like, and the mission date re-parses
to itself, importing the rows produced by the detailed export yields one
mission per input mission, in order, with the same employee name, code
and branch, the same mission date, exactly the same per-expense-type
per-bank totals (hence within 0.01), and the exported grand total; the
mission id and every expense id are freshly generated from the row index,
not copied from the input. -/
theorem C1_export_import_roundtrip (today : String) (ms : List Mission)
    (h : ∀ m ∈ ms, C1Hyp m) :
    ((importMissionsModel today (ms.map exportRowOf) []).missions.length = ms.length) ∧
    (∀ (i : ℕ) (m : Mission), ms[i]? = some m →
      ∃ m2, (importMissionsModel today (ms.map exportRowOf) []).missions[i]? = some m2 ∧
        m2.employeeName = m.employeeName ∧
        m2.employeeCode = m.employeeCode ∧
        m2.employeeBranch = m.employeeBranch ∧
        m2.missionDate = m.missionDate ∧
        (∀ (b : String) (t : CanonType),
          perBankTypeTotal m2 b t = perBankTypeTotal m b t) ∧
        m2.totalAmount = missionGrandTotal m ∧
        (m.totalAmount = missionGrandTotal m → m2.totalAmount = m.totalAmount) ∧
        m2.id = generateMissionId i ∧
        (∀ e ∈ m2.expenses, ∃ k, e.id = generateExpenseId i k)) := by
  have hgrp : groupExpenseRows [] = [] := rfl
  have hmiss : (importMissionsModel today (ms.map exportRowOf) []).missions =
      (ms.map exportRowOf).enum.map (fun p => (parseMissionRow today p.1 p.2).1) := by
    show linkExpenses (importMissionRows today (ms.map exportRowOf)).missions
        (importMissionRows today (ms.map exportRowOf)).idMap (groupExpenseRows []) = _
    rw [hgrp, linkExpenses_nil, importMissionRows_missions]
  constructor
  · rw [hmiss, List.length_map, List.enum_length, List.length_map]
  · intro i m hms
    refine ⟨(parseMissionRow today i (exportRowOf m)).1, ?_, ?_⟩
    · rw [hmiss, List.getElem?_map, List.getElem?_enum, List.getElem?_map, hms]
      rfl
    · have hmem : m ∈ ms := List.getElem?_mem hms
      obtain ⟨h1, h2, h3, h4, h5, h6, h7, h8⟩ := roundtrip_mission today i m (h m hmem)
      exact ⟨h1, h2, h3, h4, h5, h6, fun ht => h6.trans ht.symm, h7, h8⟩

/-- A concrete two-bank, two-expense mission for exercising the round trip. -/
def c1Mission : Mission :=
  { id := "orig-1"
  , employeeCode := 7
  , employeeName := "Sam"
  , employeeBranch := "HQ"
  , missionDate := "2024-03-05"
  , bank := some "BankA"
  , statement := none
  , totalAmount := 142
  , expenses :=
      [ { id := "e1", type := "transportation", amount := 100, banks := ["BankA", "BankB"] }
      , { id := "e2", type := "accommodation", amount := 42, banks := ["BankB"] } ] }

theorem C1_export_import_roundtrip_witness :
    (∀ m ∈ [c1Mission], C1Hyp m) ∧
    ((importMissionsModel "2024-01-01" ([c1Mission].map exportRowOf) []).missions.length = 1) ∧
    (∃ m2, (importMissionsModel "2024-01-01"
          ([c1Mission].map exportRowOf) []).missions[0]? = some m2 ∧
        m2.employeeName = c1Mission.employeeName ∧
        m2.employeeCode = c1Mission.employeeCode ∧
        m2.employeeBranch = c1Mission.employeeBranch ∧
        m2.missionDate = c1Mission.missionDate ∧
        (∀ (b : String) (t : CanonType),
          perBankTypeTotal m2 b t = perBankTypeTotal c1Mission b t) ∧
        m2.totalAmount = missionGrandTotal c1Mission ∧
        (c1Mission.totalAmount = missionGrandTotal c1Mission →
          m2.totalAmount = c1Mission.totalAmount) ∧
        m2.id = generateMissionId 0 ∧
        (∀ e ∈ m2.expenses, ∃ k, e.id = generateExpenseId 0 k)) := by
  have hh : ∀ m ∈ [c1Mission], C1Hyp m := by
    intro m hm
    rw [List.mem_singleton] at hm
    subst hm
    unfold C1Hyp GoodBank ExpensesOk
    refine ⟨?_, ?_, ?_, ?_, ?_, ?_, ?_, ?_⟩ <;> with_unfolding_all decide
  have hc := C1_export_import_roundtrip "2024-01-01" [c1Mission] hh
  exact ⟨hh, hc.1, hc.2 0 c1Mission rfl⟩

end TaskTracker
